import Mathlib

/-!
# `shading.cpp`: a sphere ray tracer with Lambertian shading and hard shadows

Shallow embedding of `src/shading.cpp`.

* `float` is idealised as exact arithmetic in a linearly ordered field `F`
  (rounding, `NaN` and overflow are not modelled).  The embedding is generic in
  `F`, so every definition is executable over `ℚ`, and the theorems are valid
  over `ℝ`.
* `sqrt` of `<cmath>` is a parameter `sqrt : F → F` of every function that calls
  it.  Properties that depend on what a square root is assume `IsSqrt sqrt`,
  which `Real.sqrt` satisfies.
* `INFINITY` is the value `none` of `Option F`; a `const Sphere *` into the
  vector `spheres` is `Option Nat`: `none` is `nullptr`, `some i` is
  `&spheres[i]`.
* Division by zero follows the field convention `a / 0 = 0`, where the `float`
  code produces a non-finite value.
* `tan` of `<cmath>` is a parameter `tan : F → F` of `render`, as `sqrt` is; the
  locals `width` and `height` of `render` are parameters of `renderWith`, and
  `render` is `renderWith` at 640 and 480.
* The file `render` writes is the list of the bytes written to it.
-/

namespace RayTracing

/-- The class `Vector3`: three scalar components. -/
structure Vector3 (F : Type) where
  x : F
  y : F
  z : F
deriving DecidableEq

/-- The class `Sphere`: centre, radius, albedo colour and albedo scalar. -/
structure Sphere (F : Type) where
  center : Vector3 F
  radius : F
  color : Vector3 F
  albedo : F
deriving DecidableEq

/-- The class `Light`: position, colour and intensity. -/
structure Light (F : Type) where
  position : Vector3 F
  color : Vector3 F
  intensity : F
deriving DecidableEq

section Embedding

variable {F : Type} [LinearOrderedField F]

/-- The macro `PI`, the decimal literal `3.141592653589793`. -/
def PI : F := 3141592653589793 / 1000000000000000

/-- The function `std::max(a, b)`, which is `(a < b) ? b : a`. -/
def stdMax (a b : F) : F := if a < b then b else a

/-- The function `std::min(a, b)`, which is `(b < a) ? b : a`. -/
def stdMin (a b : F) : F := if b < a then b else a

/-- The function `clamp(lo, hi, v)`: `max(lo, min(hi, v))`. -/
def clamp (lo hi v : F) : F := stdMax lo (stdMin hi v)

/-- The default constructor `Vector3()`. -/
def Vector3.zero : Vector3 F := ⟨0, 0, 0⟩

/-- The method `Vector3::normalize`: divide each component by the Euclidean norm. -/
def Vector3.normalize (sqrt : F → F) (v : Vector3 F) : Vector3 F :=
  let norm := sqrt (v.x * v.x + v.y * v.y + v.z * v.z)
  ⟨v.x / norm, v.y / norm, v.z / norm⟩

/-- The binary `Vector3::operator-`. -/
def Vector3.sub (a other : Vector3 F) : Vector3 F :=
  ⟨a.x - other.x, a.y - other.y, a.z - other.z⟩

/-- The unary `Vector3::operator-`. -/
def Vector3.neg (a : Vector3 F) : Vector3 F := ⟨-a.x, -a.y, -a.z⟩

/-- The method `Vector3::operator+`. -/
def Vector3.add (a other : Vector3 F) : Vector3 F :=
  ⟨a.x + other.x, a.y + other.y, a.z + other.z⟩

/-- The method `Vector3::operator*(float k)`. -/
def Vector3.mul (a : Vector3 F) (k : F) : Vector3 F := ⟨a.x * k, a.y * k, a.z * k⟩

/-- The static method `Vector3::dotProduct`. -/
def Vector3.dotProduct (vec1 vec2 : Vector3 F) : F :=
  vec1.x * vec2.x + vec1.y * vec2.y + vec1.z * vec2.z

/-- The method `Vector3::crossProduct`. -/
def Vector3.crossProduct (a other : Vector3 F) : Vector3 F :=
  ⟨a.y * other.z - a.z * other.y, a.z * other.x - a.x * other.z, a.x * other.y - a.y * other.x⟩

instance : Add (Vector3 F) := ⟨Vector3.add⟩

instance : Sub (Vector3 F) := ⟨Vector3.sub⟩

instance : Neg (Vector3 F) := ⟨Vector3.neg⟩

instance : HMul (Vector3 F) F (Vector3 F) := ⟨Vector3.mul⟩

instance : Inhabited (Vector3 F) := ⟨Vector3.zero⟩

instance : Inhabited (Sphere F) := ⟨⟨Vector3.zero, 0, Vector3.zero, 0⟩⟩

/-- The method `Sphere::intersect`.  The result is `none` when the method returns
`false` and `some (t0, t1)`, the values left in the two out-parameters, when it
returns `true`. -/
def Sphere.intersect (sqrt : F → F) (s : Sphere F) (origin direction : Vector3 F) :
    Option (F × F) :=
  let L := s.center - origin
  let tca := Vector3.dotProduct L direction
  let d2 := Vector3.dotProduct L L - tca * tca
  let radius2 := s.radius * s.radius
  if d2 > radius2 then none
  else
    let thc := sqrt (radius2 - d2)
    let t0 := tca - thc
    let t1 := tca + thc
    let ts : F × F := if t0 > t1 then (t1, t0) else (t0, t1)
    if ts.1 < 0 then
      if ts.2 < 0 then none else some (ts.2, ts.2)
    else some ts

/-- The method `Sphere::getNormalAtPoint`. -/
def Sphere.getNormalAtPoint (sqrt : F → F) (s : Sphere F) (point : Vector3 F) : Vector3 F :=
  Vector3.normalize sqrt (point - s.center)

/-- The comparison `t0 < tnear` of `trace`, where `tnear` may still be `INFINITY`. -/
def belowTnear (t0 : F) : Option F → Bool
  | none => true
  | some tnear => decide (t0 < tnear)

/-- The values `trace` leaves behind: the returned flag, the out-parameter `tnear`
(`none` is `INFINITY`) and the in-out pointer `hitSphere`. -/
structure TraceResult (F : Type) where
  hit : Bool
  tnear : Option F
  hitSphere : Option Nat
deriving DecidableEq

/-- The loop of `trace` from index `i` on, over the spheres not yet visited. -/
def traceLoop (sqrt : F → F) (origin direction : Vector3 F) :
    List (Sphere F) → Nat → Option F → Option Nat → Option F × Option Nat
  | [], _, tnear, hitSphere => (tnear, hitSphere)
  | s :: rest, i, tnear, hitSphere =>
    match s.intersect sqrt origin direction with
    | some (t0, _) =>
      if belowTnear t0 tnear then traceLoop sqrt origin direction rest (i + 1) (some t0) (some i)
      else traceLoop sqrt origin direction rest (i + 1) tnear hitSphere
    | none => traceLoop sqrt origin direction rest (i + 1) tnear hitSphere

/-- The function `trace`.  The parameter `hitSphere` is the value the caller left in
the in-out pointer, which `trace` does not reset; both calls in `castRay` pass
`nullptr`. -/
def trace (sqrt : F → F) (origin direction : Vector3 F) (spheres : List (Sphere F))
    (hitSphere : Option Nat) : TraceResult F :=
  let r := traceLoop sqrt origin direction spheres 0 none hitSphere
  ⟨r.2.isSome, r.1, r.2⟩

/-- The body of the loop over the lights in `castRay`: the colour after `light`, from
the colour before it.  `k` is the index `hitSphere` points at and `S` its sphere. -/
def shadeLight (sqrt : F → F) (spheres : List (Sphere F)) (k : Nat) (S : Sphere F)
    (hitPoint hitNormal : Vector3 F) (color : Vector3 F) (light : Light F) : Vector3 F :=
  let lightDir := Vector3.normalize sqrt (light.position - hitPoint)
  let shadowRayDir := lightDir
  let shadow := trace sqrt (hitPoint + hitNormal * (1 / 1000 : F)) shadowRayDir spheres none
  if shadow.hit && shadow.hitSphere != some k then color
  else
    let cosTheta := stdMax (Vector3.dotProduct lightDir hitNormal) 0
    let diffuseColor := S.color * cosTheta
    color + diffuseColor * (light.intensity * S.albedo / PI)

/-- The function `castRay`.  When `trace` reports a hit it has set `tnear` and
`hitSphere` to a sphere of the list (`trace_hit_spec`), so the defaults of the
two `getD` are never used. -/
def castRay (sqrt : F → F) (origin direction : Vector3 F) (spheres : List (Sphere F))
    (lights : List (Light F)) : Vector3 F :=
  let r := trace sqrt origin direction spheres none
  if r.hit then
    let t0 := r.tnear.getD 0
    let k := r.hitSphere.getD 0
    let S := spheres.getD k default
    let hitPoint := origin + direction * t0
    let hitNormal := S.getNormalAtPoint sqrt hitPoint
    lights.foldl (shadeLight sqrt spheres k S hitPoint hitNormal) ⟨0, 0, 0⟩
  else ⟨1 / 2, 1 / 2, 1 / 2⟩

/-- The conversion `(unsigned char)(clamp(0, 1, v) * 255)` of `render`: truncation
toward zero, then the value modulo 256. -/
def channelByte [FloorRing F] (v : F) : Nat :=
  let scaled := clamp 0 1 v * 255
  let truncated : Int := if 0 ≤ scaled then ⌊scaled⌋ else ⌈scaled⌉
  (truncated % 256).toNat

/-- The three bytes `render` writes for one pixel of the image buffer. -/
def pixelBytes [FloorRing F] (c : Vector3 F) : List Nat :=
  [channelByte c.x, channelByte c.y, channelByte c.z]

/-- The shadow test `castRay` makes for one light: true when the `continue` is taken
and the light is skipped. -/
def shadowSkips (sqrt : F → F) (spheres : List (Sphere F)) (k : Nat)
    (hitPoint hitNormal : Vector3 F) (light : Light F) : Bool :=
  let lightDir := Vector3.normalize sqrt (light.position - hitPoint)
  let shadow := trace sqrt (hitPoint + hitNormal * (1 / 1000 : F)) lightDir spheres none
  shadow.hit && shadow.hitSphere != some k

/-- The contribution the specification gives a light `L` at the point `P` of the sphere
`S` with normal `N`: `S.color * max(dot(D, N), 0) * (L.intensity * S.albedo / PI)`,
where `D` is the normalized vector from `P` to the position of `L`. -/
def lambertTerm (sqrt : F → F) (S : Sphere F) (P N : Vector3 F) (L : Light F) : Vector3 F :=
  let D := Vector3.normalize sqrt (L.position - P)
  S.color * max (Vector3.dotProduct D N) 0 * (L.intensity * S.albedo / PI)

/-- The sum of a list of vectors. -/
def Vector3.sum : List (Vector3 F) → Vector3 F
  | [] => ⟨0, 0, 0⟩
  | v :: vs => v + Vector3.sum vs

/-- The colour the specification gives a hit: the sum of `lambertTerm` over the lights
that the shadow test does not skip. -/
def lambertSum (sqrt : F → F) (spheres : List (Sphere F)) (k : Nat) (S : Sphere F)
    (P N : Vector3 F) (lights : List (Light F)) : Vector3 F :=
  Vector3.sum ((lights.filter fun L => !shadowSkips sqrt spheres k P N L).map
    (lambertTerm sqrt S P N))

/-- The square root laws on non-negative arguments. -/
def IsSqrt (sqrt : F → F) : Prop :=
  ∀ a : F, 0 ≤ a → 0 ≤ sqrt a ∧ sqrt a * sqrt a = a

/-- The point lies on the surface of the sphere: its squared distance to the centre
is the radius squared. -/
def Sphere.onSurface (s : Sphere F) (p : Vector3 F) : Prop :=
  Vector3.dotProduct (p - s.center) (p - s.center) = s.radius * s.radius

/-- The first sphere `main` puts in the scene. -/
def mainSphere0 : Sphere F := ⟨⟨0, 0, -30⟩, 2, ⟨1, 32 / 100, 36 / 100⟩, 7 / 10⟩

/-- The list `spheres` that `main` builds. -/
def mainSpheres : List (Sphere F) :=
  [mainSphere0,
   ⟨⟨-7, 0, -30⟩, 2, ⟨31 / 100, 1, 36 / 100⟩, 7 / 10⟩,
   ⟨⟨7, 0, -30⟩, 2, ⟨36 / 100, 32 / 100, 1⟩, 7 / 10⟩]

/-- The list `lights` that `main` builds. -/
def mainLights : List (Light F) :=
  [⟨⟨-3, -(1 / 2), -28⟩, ⟨1, 1, 1⟩, 1⟩,
   ⟨⟨11, 2, -(59 / 2)⟩, ⟨1, 1, 1⟩, 1⟩]

/-- A scene for the shadow test: a unit sphere in front of the camera, and a unit
sphere behind the camera, between the first sphere and `shadowLight`. -/
def shadowScene : List (Sphere F) :=
  [⟨⟨0, 0, -3⟩, 1, ⟨1, 1, 1⟩, 1⟩, ⟨⟨0, 0, 5⟩, 1, ⟨1, 1, 1⟩, 1⟩]

/-- A light on the depth axis, behind the second sphere of `shadowScene`. -/
def shadowLight : Light F := ⟨⟨0, 0, 10⟩, ⟨1, 1, 1⟩, 1⟩

/-- The local `scale` of `render`: `tan(PI * 0.5 * fov / 180.)` with `fov = 30`.  The
function `tan` of `<cmath>` is a parameter, as `sqrt` is. -/
def renderScale (tan : F → F) : F := tan (PI * (1 / 2) * 30 / 180)

/-- The camera coordinate `x` that `render` computes for the pixel column `i`. -/
def pixelX (tan : F → F) (width height : Nat) (i : Nat) : F :=
  let invWidth : F := 1 / (width : F)
  let aspectRatio : F := (width : F) / (height : F)
  (2 * (((i : F) + 1 / 2) * invWidth) - 1) * renderScale tan * aspectRatio

/-- The camera coordinate `y` that `render` computes for the pixel row `j`. -/
def pixelY (tan : F → F) (height : Nat) (j : Nat) : F :=
  let invHeight : F := 1 / (height : F)
  (1 - 2 * (((j : F) + 1 / 2) * invHeight)) * renderScale tan

/-- The colour `render` computes for the pixel of column `i` and row `j`: `castRay`
from the camera at the origin along the normalized direction `(x, y, -1)`. -/
def pixelColor (sqrt tan : F → F) (width height : Nat) (spheres : List (Sphere F))
    (lights : List (Light F)) (i j : Nat) : Vector3 F :=
  let direction : Vector3 F := ⟨pixelX tan width height i, pixelY tan height j, -1⟩
  castRay sqrt ⟨0, 0, 0⟩ (Vector3.normalize sqrt direction) spheres lights

/-- The iterations of the pixel loops of `render`, in the order they run: `i` over the
columns in the outer loop, `j` over the rows in the inner loop. -/
def renderPixels (width height : Nat) : List (Nat × Nat) :=
  (List.range width).flatMap fun i => (List.range height).map fun j => (i, j)

/-- The buffer indices the pixel loops of `render` write, in the order of the writes. -/
def renderWrites (width height : Nat) : List Nat :=
  (renderPixels width height).map fun ij => ij.2 * width + ij.1

/-- The buffer `image` after the pixel loops of `render`: allocated with
`width * height` default vectors, then written at `j * width + i` in every iteration. -/
def renderImage (sqrt tan : F → F) (width height : Nat) (spheres : List (Sphere F))
    (lights : List (Light F)) : List (Vector3 F) :=
  (renderPixels width height).foldl
    (fun image ij =>
      image.set (ij.2 * width + ij.1) (pixelColor sqrt tan width height spheres lights ij.1 ij.2))
    (List.replicate (width * height) Vector3.zero)

/-- The bytes of the header `render` writes: `"P6\n" << width << " " << height << "\n255\n"`. -/
def ppmHeader (width height : Nat) : List Nat :=
  ("P6\n" ++ toString width ++ " " ++ toString height ++ "\n255\n").toList.map Char.toNat

/-- The bytes the serialization loop of `render` writes: for `i` from 0 to
`height * width`, the three bytes of `image[i]`. -/
def pixelData [FloorRing F] (width height : Nat) (image : List (Vector3 F)) : List Nat :=
  (List.range (height * width)).flatMap fun i => pixelBytes (image.getD i default)

/-- The function `render` with the locals `width` and `height` as parameters: the bytes
written to the output file. -/
def renderWith [FloorRing F] (sqrt tan : F → F) (width height : Nat)
    (spheres : List (Sphere F)) (lights : List (Light F)) : List Nat :=
  ppmHeader width height
    ++ pixelData width height (renderImage sqrt tan width height spheres lights)

/-- The function `render`, with `width = 640` and `height = 480`. -/
def render [FloorRing F] (sqrt tan : F → F) (spheres : List (Sphere F))
    (lights : List (Light F)) : List Nat :=
  renderWith sqrt tan 640 480 spheres lights

/-- The variant of the body of the light loop that skips the light whenever the shadow
`trace` reports a hit, whichever sphere it is. -/
def shadeLightAnyHit (sqrt : F → F) (spheres : List (Sphere F)) (S : Sphere F)
    (hitPoint hitNormal : Vector3 F) (color : Vector3 F) (light : Light F) : Vector3 F :=
  let lightDir := Vector3.normalize sqrt (light.position - hitPoint)
  let shadow := trace sqrt (hitPoint + hitNormal * (1 / 1000 : F)) lightDir spheres none
  if shadow.hit then color
  else
    let cosTheta := stdMax (Vector3.dotProduct lightDir hitNormal) 0
    let diffuseColor := S.color * cosTheta
    color + diffuseColor * (light.intensity * S.albedo / PI)

/-- The variant of `castRay` without the self-hit exception: its light loop runs
`shadeLightAnyHit`. -/
def castRayAnyHit (sqrt : F → F) (origin direction : Vector3 F) (spheres : List (Sphere F))
    (lights : List (Light F)) : Vector3 F :=
  let r := trace sqrt origin direction spheres none
  if r.hit then
    let t0 := r.tnear.getD 0
    let k := r.hitSphere.getD 0
    let S := spheres.getD k default
    let hitPoint := origin + direction * t0
    let hitNormal := S.getNormalAtPoint sqrt hitPoint
    lights.foldl (shadeLightAnyHit sqrt spheres S hitPoint hitNormal) ⟨0, 0, 0⟩
  else ⟨1 / 2, 1 / 2, 1 / 2⟩

/-- The sphere the pointer `hitSphere` of a result of `trace` points at, in the list
the trace ran over. -/
def TraceResult.sphere (r : TraceResult F) (spheres : List (Sphere F)) : Option (Sphere F) :=
  r.hitSphere.bind fun k => spheres[k]?

/-- Two lights with the same position and the same intensity. -/
def Light.sameButColor (a b : Light F) : Prop :=
  a.position = b.position ∧ a.intensity = b.intensity

/-- A light at the camera position, in front of the first sphere of `shadowScene` and
between the two spheres. -/
def cameraLight : Light F := ⟨⟨0, 0, 0⟩, ⟨1, 1, 1⟩, 1⟩

/-- A light on the depth axis behind the first sphere of `shadowScene`. -/
def backLight : Light F := ⟨⟨0, 0, -10⟩, ⟨1, 1, 1⟩, 1⟩

/-- The local `tca` of `Sphere::intersect`: the parameter of closest approach. -/
def Sphere.tca (s : Sphere F) (origin direction : Vector3 F) : F :=
  Vector3.dotProduct (s.center - origin) direction

/-- The local `d2` of `Sphere::intersect`. -/
def Sphere.d2 (s : Sphere F) (origin direction : Vector3 F) : F :=
  Vector3.dotProduct (s.center - origin) (s.center - origin)
    - s.tca origin direction * s.tca origin direction

/-- The local `thc` of `Sphere::intersect`: the half chord length. -/
def Sphere.thc (sqrt : F → F) (s : Sphere F) (origin direction : Vector3 F) : F :=
  sqrt (s.radius * s.radius - s.d2 origin direction)

end Embedding


section Lemmas

variable {F : Type} [LinearOrderedField F]

theorem Vector3.ext_iff3 {G : Type} (a b : Vector3 G) :
    a = b ↔ a.x = b.x ∧ a.y = b.y ∧ a.z = b.z := by
  cases a; cases b; simp


@[simp]
theorem Vector3.add_x (a b : Vector3 F) : (a + b).x = a.x + b.x := rfl

@[simp]
theorem Vector3.add_y (a b : Vector3 F) : (a + b).y = a.y + b.y := rfl

@[simp]
theorem Vector3.add_z (a b : Vector3 F) : (a + b).z = a.z + b.z := rfl

@[simp]
theorem Vector3.sub_x (a b : Vector3 F) : (a - b).x = a.x - b.x := rfl

@[simp]
theorem Vector3.sub_y (a b : Vector3 F) : (a - b).y = a.y - b.y := rfl

@[simp]
theorem Vector3.sub_z (a b : Vector3 F) : (a - b).z = a.z - b.z := rfl

@[simp]
theorem Vector3.mul_x (a : Vector3 F) (k : F) : (a * k).x = a.x * k := rfl

@[simp]
theorem Vector3.mul_y (a : Vector3 F) (k : F) : (a * k).y = a.y * k := rfl

@[simp]
theorem Vector3.mul_z (a : Vector3 F) (k : F) : (a * k).z = a.z * k := rfl

/-- The real square root satisfies the square root laws. -/
theorem isSqrt_real : IsSqrt Real.sqrt := fun a ha =>
  ⟨Real.sqrt_nonneg a, Real.mul_self_sqrt ha⟩

/-- The branches of `Sphere::intersect` in terms of its locals `tca` and `thc`, for
any function `sqrt`. -/
theorem Sphere.intersect_eq (sqrt : F → F) (s : Sphere F) (o d : Vector3 F) :
    s.intersect sqrt o d =
      if s.d2 o d > s.radius * s.radius then none
      else if s.tca o d - s.thc sqrt o d > s.tca o d + s.thc sqrt o d then
        (if s.tca o d + s.thc sqrt o d < 0 then
          (if s.tca o d - s.thc sqrt o d < 0 then none
            else some (s.tca o d - s.thc sqrt o d, s.tca o d - s.thc sqrt o d))
          else some (s.tca o d + s.thc sqrt o d, s.tca o d - s.thc sqrt o d))
      else
        (if s.tca o d - s.thc sqrt o d < 0 then
          (if s.tca o d + s.thc sqrt o d < 0 then none
            else some (s.tca o d + s.thc sqrt o d, s.tca o d + s.thc sqrt o d))
          else some (s.tca o d - s.thc sqrt o d, s.tca o d + s.thc sqrt o d)) := by
  unfold Sphere.intersect Sphere.thc Sphere.d2 Sphere.tca
  simp only []
  split_ifs <;> rfl

/-- With a true square root the half chord is non-negative and squares to
`radius² - d2` whenever the first test of `Sphere::intersect` passes. -/
theorem Sphere.thc_spec {sqrt : F → F} (hs : IsSqrt sqrt) (s : Sphere F) (o d : Vector3 F)
    (h : ¬ s.d2 o d > s.radius * s.radius) :
    0 ≤ s.thc sqrt o d ∧ s.thc sqrt o d * s.thc sqrt o d = s.radius * s.radius - s.d2 o d := by
  have h0 : 0 ≤ s.radius * s.radius - s.d2 o d := by linarith [not_lt.mp h]
  exact hs _ h0

/-- With a true square root `Sphere::intersect` never swaps, and its result is
decided by the signs of `tca - thc` and `tca + thc`. -/
theorem Sphere.intersect_eq_of_isSqrt {sqrt : F → F} (hs : IsSqrt sqrt) (s : Sphere F)
    (o d : Vector3 F) :
    s.intersect sqrt o d =
      if s.d2 o d > s.radius * s.radius then none
      else if s.tca o d - s.thc sqrt o d < 0 then
        (if s.tca o d + s.thc sqrt o d < 0 then none
          else some (s.tca o d + s.thc sqrt o d, s.tca o d + s.thc sqrt o d))
      else some (s.tca o d - s.thc sqrt o d, s.tca o d + s.thc sqrt o d) := by
  rw [Sphere.intersect_eq]
  by_cases h : s.d2 o d > s.radius * s.radius
  · simp [h]
  · have h1 := (Sphere.thc_spec hs s o d h).1
    have h2 : ¬ (s.tca o d - s.thc sqrt o d > s.tca o d + s.thc sqrt o d) := by
      intro h3; linarith
    simp only [h, h2, if_false]

/-- The squared distance from the point `o + d * t` of the ray to the centre. -/
theorem Sphere.onSurface_ray (s : Sphere F) (o d : Vector3 F) (t : F) :
    s.onSurface (o + d * t) ↔
      t * t * Vector3.dotProduct d d - 2 * t * s.tca o d
        + Vector3.dotProduct (s.center - o) (s.center - o) = s.radius * s.radius := by
  unfold Sphere.onSurface Sphere.tca Vector3.dotProduct
  simp only [Vector3.add_x, Vector3.add_y, Vector3.add_z, Vector3.sub_x, Vector3.sub_y,
    Vector3.sub_z, Vector3.mul_x, Vector3.mul_y, Vector3.mul_z]
  constructor <;> intro h <;> linear_combination h

/-- On a ray of unit direction, the point of parameter `t` is on the surface exactly
when `(t - tca)² = radius² - d2`. -/
theorem Sphere.onSurface_unit (s : Sphere F) (o d : Vector3 F) (t : F)
    (hd : Vector3.dotProduct d d = 1) :
    s.onSurface (o + d * t) ↔
      (t - s.tca o d) * (t - s.tca o d) = s.radius * s.radius - s.d2 o d := by
  rw [Sphere.onSurface_ray, hd]
  unfold Sphere.d2
  constructor <;> intro h <;> linear_combination h

/-- The parameters `Sphere::intersect` reports are ordered, and on a ray of unit
direction both are parameters of points of the surface. -/
theorem Sphere.intersect_spec {sqrt : F → F} (hs : IsSqrt sqrt) (s : Sphere F)
    (origin direction : Vector3 F) (t0 t1 : F)
    (h : s.intersect sqrt origin direction = some (t0, t1)) :
    t0 ≤ t1 ∧ (Vector3.dotProduct direction direction = 1 →
      s.onSurface (origin + direction * t0) ∧ s.onSurface (origin + direction * t1)) := by
  rw [Sphere.intersect_eq_of_isSqrt hs] at h
  by_cases hd2 : s.d2 origin direction > s.radius * s.radius
  · simp [hd2] at h
  · obtain ⟨h1, h2⟩ := Sphere.thc_spec hs s origin direction hd2
    have hplus : Vector3.dotProduct direction direction = 1 →
        s.onSurface (origin + direction * (s.tca origin direction + s.thc sqrt origin direction)) := by
      intro hd
      rw [Sphere.onSurface_unit s origin direction _ hd, ← h2]; ring
    have hminus : Vector3.dotProduct direction direction = 1 →
        s.onSurface (origin + direction * (s.tca origin direction - s.thc sqrt origin direction)) := by
      intro hd
      rw [Sphere.onSurface_unit s origin direction _ hd, ← h2]; ring
    simp only [hd2, if_false] at h
    split_ifs at h with h3 h4
    · simp only [Option.some.injEq, Prod.mk.injEq] at h
      obtain ⟨rfl, rfl⟩ := h
      exact ⟨le_refl _, fun hd => ⟨hplus hd, hplus hd⟩⟩
    · simp only [Option.some.injEq, Prod.mk.injEq] at h
      obtain ⟨rfl, rfl⟩ := h
      exact ⟨by linarith, fun hd => ⟨hminus hd, hplus hd⟩⟩

/-- A true square root returns `r` on `r * r` when `r` is non-negative. -/
theorem IsSqrt.sqrt_mul_self {sqrt : F → F} (hs : IsSqrt sqrt) {r : F} (hr : 0 ≤ r) :
    sqrt (r * r) = r := by
  obtain ⟨h1, h2⟩ := hs (r * r) (mul_self_nonneg r)
  rcases mul_self_eq_mul_self_iff.mp h2 with h | h
  · exact h
  · have : sqrt (r * r) = 0 := by linarith
    have : r = 0 := by linarith
    linarith

theorem belowTnear_none (t0 : F) : belowTnear t0 none = true := rfl

theorem belowTnear_some (t0 tnear : F) : belowTnear t0 (some tnear) = true ↔ t0 < tnear := by
  simp [belowTnear]

theorem belowTnear_false (t0 : F) (tnear : Option F) :
    belowTnear t0 tnear = false ↔ ∃ T, tnear = some T ∧ T ≤ t0 := by
  cases tnear with
  | none => simp [belowTnear]
  | some T => simp [belowTnear]

/-- If `t0` passes the test against a `t1` that passes the test against `tnear`, and
`t0 < t1`, then `t0` passes the test against `tnear`. -/
theorem belowTnear_trans {t0 t1 : F} {tnear : Option F} (h01 : t0 < t1)
    (h : belowTnear t1 tnear = true) : belowTnear t0 tnear = true := by
  cases tnear with
  | none => rfl
  | some T =>
    rw [belowTnear_some] at h ⊢
    exact lt_trans h01 h

/-- The loop of `trace` either leaves `tnear` and `hitSphere` as they were, no
remaining sphere reporting a `t0` below `tnear`, or it ends at the first remaining
sphere whose `t0` is least, that `t0` being below the incoming `tnear`. -/
theorem traceLoop_spec (sqrt : F → F) (o d : Vector3 F) :
    ∀ (rest : List (Sphere F)) (i : Nat) (tnear : Option F) (hp : Option Nat),
      (traceLoop sqrt o d rest i tnear hp = (tnear, hp)
        ∧ ∀ S ∈ rest, ∀ t0 t1 : F, S.intersect sqrt o d = some (t0, t1) →
            belowTnear t0 tnear = false)
      ∨ (∃ (j : Nat) (S : Sphere F) (t0 t1 : F), rest[j]? = some S
          ∧ S.intersect sqrt o d = some (t0, t1)
          ∧ traceLoop sqrt o d rest i tnear hp = (some t0, some (i + j))
          ∧ belowTnear t0 tnear = true
          ∧ (∀ (j' : Nat) (S' : Sphere F) (t0' t1' : F), rest[j']? = some S' →
              S'.intersect sqrt o d = some (t0', t1') → t0 ≤ t0')
          ∧ (∀ (j' : Nat) (S' : Sphere F) (t0' t1' : F), j' < j → rest[j']? = some S' →
              S'.intersect sqrt o d = some (t0', t1') → t0 < t0')) := by
  intro rest
  induction rest with
  | nil =>
    intro i tnear hp
    left
    exact ⟨rfl, fun S hS => absurd hS (List.not_mem_nil S)⟩
  | cons s rest ih =>
    intro i tnear hp
    cases hint : s.intersect sqrt o d with
    | none =>
      have hstep : traceLoop sqrt o d (s :: rest) i tnear hp
          = traceLoop sqrt o d rest (i + 1) tnear hp := by
        simp only [traceLoop, hint]
      rcases ih (i + 1) tnear hp with ⟨heq, hall⟩ | ⟨j, S, t0, t1, hj, hS, heq, hlt, hmin, hfirst⟩
      · left
        refine ⟨by rw [hstep, heq], ?_⟩
        intro S hS t0 t1 hSi
        rcases List.mem_cons.mp hS with rfl | hS
        · rw [hint] at hSi; cases hSi
        · exact hall S hS t0 t1 hSi
      · right
        refine ⟨j + 1, S, t0, t1, by simpa using hj, hS, ?_, hlt, ?_, ?_⟩
        · rw [hstep, heq]; congr 2; omega
        · intro j' S' t0' t1' hj' hS'
          cases j' with
          | zero =>
            simp only [List.getElem?_cons_zero, Option.some.injEq] at hj'
            subst hj'; rw [hint] at hS'; cases hS'
          | succ j' => exact hmin j' S' t0' t1' (by simpa using hj') hS'
        · intro j' S' t0' t1' hlt' hj' hS'
          cases j' with
          | zero =>
            simp only [List.getElem?_cons_zero, Option.some.injEq] at hj'
            subst hj'; rw [hint] at hS'; cases hS'
          | succ j' => exact hfirst j' S' t0' t1' (by omega) (by simpa using hj') hS'
    | some ts =>
      obtain ⟨a0, a1⟩ := ts
      by_cases hb : belowTnear a0 tnear = true
      · have hstep : traceLoop sqrt o d (s :: rest) i tnear hp
            = traceLoop sqrt o d rest (i + 1) (some a0) (some i) := by
          simp only [traceLoop, hint, hb, if_true]
        rcases ih (i + 1) (some a0) (some i) with
          ⟨heq, hall⟩ | ⟨j, S, t0, t1, hj, hS, heq, hlt, hmin, hfirst⟩
        · right
          refine ⟨0, s, a0, a1, by simp, hint, by rw [hstep, heq]; rfl, hb, ?_, ?_⟩
          · intro j' S' t0' t1' hj' hS'
            cases j' with
            | zero =>
              simp only [List.getElem?_cons_zero, Option.some.injEq] at hj'
              subst hj'; rw [hint] at hS'
              simp only [Option.some.injEq, Prod.mk.injEq] at hS'
              exact le_of_eq hS'.1
            | succ j' =>
              have hmem : S' ∈ rest := List.getElem?_mem (show rest[j']? = some S' by simpa using hj')
              obtain ⟨T, hT, hle⟩ := (belowTnear_false _ _).mp (hall S' hmem t0' t1' hS')
              cases hT; exact hle
          · intro j' S' t0' t1' hlt'
            omega
        · right
          rw [belowTnear_some] at hlt
          refine ⟨j + 1, S, t0, t1, by simpa using hj, hS, ?_, belowTnear_trans hlt hb, ?_, ?_⟩
          · rw [hstep, heq]; congr 2; omega
          · intro j' S' t0' t1' hj' hS'
            cases j' with
            | zero =>
              simp only [List.getElem?_cons_zero, Option.some.injEq] at hj'
              subst hj'; rw [hint] at hS'
              simp only [Option.some.injEq, Prod.mk.injEq] at hS'
              rw [← hS'.1]; exact le_of_lt hlt
            | succ j' => exact hmin j' S' t0' t1' (by simpa using hj') hS'
          · intro j' S' t0' t1' hlt' hj' hS'
            cases j' with
            | zero =>
              simp only [List.getElem?_cons_zero, Option.some.injEq] at hj'
              subst hj'; rw [hint] at hS'
              simp only [Option.some.injEq, Prod.mk.injEq] at hS'
              rw [← hS'.1]; exact hlt
            | succ j' => exact hfirst j' S' t0' t1' (by omega) (by simpa using hj') hS'
      · have hb' : belowTnear a0 tnear = false := by simpa using hb
        have hstep : traceLoop sqrt o d (s :: rest) i tnear hp
            = traceLoop sqrt o d rest (i + 1) tnear hp := by
          simp [traceLoop, hint, hb']
        obtain ⟨T, hT, hTle⟩ := (belowTnear_false _ _).mp hb'
        subst hT
        rcases ih (i + 1) (some T) hp with
          ⟨heq, hall⟩ | ⟨j, S, t0, t1, hj, hS, heq, hlt, hmin, hfirst⟩
        · left
          refine ⟨by rw [hstep, heq], ?_⟩
          intro S hS t0 t1 hSi
          rcases List.mem_cons.mp hS with rfl | hS
          · rw [hint] at hSi
            simp only [Option.some.injEq, Prod.mk.injEq] at hSi
            rw [← hSi.1]; exact hb'
          · exact hall S hS t0 t1 hSi
        · right
          have hlt' := (belowTnear_some _ _).mp hlt
          refine ⟨j + 1, S, t0, t1, by simpa using hj, hS, ?_, hlt, ?_, ?_⟩
          · rw [hstep, heq]; congr 2; omega
          · intro j' S' t0' t1' hj' hS'
            cases j' with
            | zero =>
              simp only [List.getElem?_cons_zero, Option.some.injEq] at hj'
              subst hj'; rw [hint] at hS'
              simp only [Option.some.injEq, Prod.mk.injEq] at hS'
              rw [← hS'.1]; linarith
            | succ j' => exact hmin j' S' t0' t1' (by simpa using hj') hS'
          · intro j' S' t0' t1' hlt'' hj' hS'
            cases j' with
            | zero =>
              simp only [List.getElem?_cons_zero, Option.some.injEq] at hj'
              subst hj'; rw [hint] at hS'
              simp only [Option.some.injEq, Prod.mk.injEq] at hS'
              rw [← hS'.1]; linarith
            | succ j' => exact hfirst j' S' t0' t1' (by omega) (by simpa using hj') hS'

/-- When no sphere of the list is intersected, `trace` called with a null `hitSphere`
leaves `tnear` at `INFINITY` and the pointer null, and returns false. -/
theorem trace_miss (sqrt : F → F) (o d : Vector3 F) (spheres : List (Sphere F))
    (h : ∀ S ∈ spheres, S.intersect sqrt o d = none) :
    trace sqrt o d spheres none = ⟨false, none, none⟩ := by
  rcases traceLoop_spec sqrt o d spheres 0 none none with
    ⟨heq, _⟩ | ⟨j, S, t0, t1, hj, hS, _, _, _, _⟩
  · simp only [trace, heq, Option.isSome_none]
  · rw [h S (List.getElem?_mem hj)] at hS; cases hS

/-- When some sphere of the list is intersected, `trace` called with a null
`hitSphere` returns true, with `hitSphere` at the first sphere whose `t0` is least
and `tnear` that `t0`. -/
theorem trace_hit_spec (sqrt : F → F) (o d : Vector3 F) (spheres : List (Sphere F))
    (h : ∃ S ∈ spheres, (S.intersect sqrt o d).isSome) :
    ∃ (k : Nat) (S : Sphere F) (t0 t1 : F),
      trace sqrt o d spheres none = ⟨true, some t0, some k⟩
      ∧ spheres[k]? = some S ∧ S.intersect sqrt o d = some (t0, t1)
      ∧ (∀ (j : Nat) (S' : Sphere F) (t0' t1' : F), spheres[j]? = some S' →
          S'.intersect sqrt o d = some (t0', t1') → t0 ≤ t0')
      ∧ (∀ (j : Nat) (S' : Sphere F) (t0' t1' : F), j < k → spheres[j]? = some S' →
          S'.intersect sqrt o d = some (t0', t1') → t0 < t0') := by
  rcases traceLoop_spec sqrt o d spheres 0 none none with
    ⟨_, hall⟩ | ⟨j, S, t0, t1, hj, hS, heq, _, hmin, hfirst⟩
  · obtain ⟨S, hmem, hsome⟩ := h
    obtain ⟨ts, hts⟩ := Option.isSome_iff_exists.mp hsome
    have := hall S hmem ts.1 ts.2 hts
    simp [belowTnear] at this
  · refine ⟨j, S, t0, t1, ?_, hj, hS, hmin, hfirst⟩
    simp only [trace, heq, Option.isSome_some, Nat.zero_add]

/-- The real square root of 4, the squared radius of the spheres of `main`. -/
theorem real_sqrt_four : Real.sqrt 4 = 2 := by
  rw [show (4 : ℝ) = 2 * 2 by norm_num]
  exact Real.sqrt_mul_self (by norm_num)

/-- The camera ray down the depth axis meets the first sphere of `main` at the
parameters 28 and 32. -/
theorem mainSphere0_intersect :
    Sphere.intersect Real.sqrt (mainSphere0 : Sphere ℝ) ⟨0, 0, 0⟩ ⟨0, 0, -1⟩ = some (28, 32) := by
  rw [Sphere.intersect_eq_of_isSqrt isSqrt_real]
  norm_num [Sphere.d2, Sphere.tca, Sphere.thc, Vector3.dotProduct, mainSphere0, real_sqrt_four]

/-- The byte written for the channel value one half is 127. -/
theorem channelByte_half [FloorRing F] : channelByte (1 / 2 : F) = 127 := by
  have h1 : (1 / 2 : F) < 1 := by norm_num
  have h2 : (0 : F) < 1 / 2 := by norm_num
  have h3 : (0 : F) ≤ 1 / 2 * 255 := by norm_num
  have h4 : ⌊(1 / 2 : F) * 255⌋ = 127 := by
    rw [Int.floor_eq_iff]; constructor <;> norm_num
  simp only [channelByte, clamp, stdMin, stdMax, h1, h2, h3, h4, if_true]
  rfl

theorem Vector3.add_zero3 (a : Vector3 F) : a + (⟨0, 0, 0⟩ : Vector3 F) = a := by
  simp [Vector3.ext_iff3]

theorem Vector3.add_assoc3 (a b c : Vector3 F) : a + b + c = a + (b + c) := by
  simp [Vector3.ext_iff3, add_assoc]

theorem stdMax_eq_max (a b : F) : stdMax a b = max a b := by
  unfold stdMax
  split_ifs with h
  · exact (max_eq_right (le_of_lt h)).symm
  · exact (max_eq_left (not_lt.mp h)).symm

/-- One pass of the loop over the lights either leaves the colour (the light is
skipped) or adds the Lambert term of the light. -/
theorem shadeLight_eq (sqrt : F → F) (spheres : List (Sphere F)) (k : Nat) (S : Sphere F)
    (P N c : Vector3 F) (L : Light F) :
    shadeLight sqrt spheres k S P N c L
      = if shadowSkips sqrt spheres k P N L then c else c + lambertTerm sqrt S P N L := by
  simp only [shadeLight, shadowSkips, lambertTerm, stdMax_eq_max]

/-- The loop over the lights adds to the incoming colour the sum of the Lambert terms
of the lights that are not skipped. -/
theorem foldl_shadeLight (sqrt : F → F) (spheres : List (Sphere F)) (k : Nat) (S : Sphere F)
    (P N : Vector3 F) (lights : List (Light F)) :
    ∀ c : Vector3 F, lights.foldl (shadeLight sqrt spheres k S P N) c
      = c + lambertSum sqrt spheres k S P N lights := by
  induction lights with
  | nil => intro c; simp [lambertSum, Vector3.sum, Vector3.add_zero3]
  | cons L rest ih =>
    intro c
    rw [List.foldl_cons, ih, shadeLight_eq]
    by_cases hsk : shadowSkips sqrt spheres k P N L = true
    · simp [lambertSum, hsk]
    · simp only [hsk, if_false]
      have hsk' : shadowSkips sqrt spheres k P N L = false := by simpa using hsk
      simp [lambertSum, hsk', Vector3.sum, Vector3.add_assoc3]

/-- The hit branch of `castRay`, once the result of `trace` is known. -/
theorem castRay_of_hit (sqrt : F → F) (o d : Vector3 F) (spheres : List (Sphere F))
    (lights : List (Light F)) (k : Nat) (S : Sphere F) (t0 : F)
    (htr : trace sqrt o d spheres none = ⟨true, some t0, some k⟩)
    (hk : spheres[k]? = some S) :
    castRay sqrt o d spheres lights
      = lights.foldl (shadeLight sqrt spheres k S (o + d * t0)
          (S.getNormalAtPoint sqrt (o + d * t0))) ⟨0, 0, 0⟩ := by
  have hS : spheres.getD k default = S := by
    rw [List.getD_eq_getElem?_getD, hk]; rfl
  simp only [castRay, htr, if_true, Option.getD_some, hS]

/-- At a point `P` of the surface of a sphere of positive radius, the normal that
`Sphere::getNormalAtPoint` returns is `(P - center) / radius`, a unit vector. -/
theorem Sphere.normal_spec {sqrt : F → F} (hs : IsSqrt sqrt) (S : Sphere F) (P : Vector3 F)
    (hr : 0 < S.radius) (hP : S.onSurface P) :
    (S.getNormalAtPoint sqrt P).x * S.radius = P.x - S.center.x
    ∧ (S.getNormalAtPoint sqrt P).y * S.radius = P.y - S.center.y
    ∧ (S.getNormalAtPoint sqrt P).z * S.radius = P.z - S.center.z
    ∧ Vector3.dotProduct (S.getNormalAtPoint sqrt P) (S.getNormalAtPoint sqrt P) = 1 := by
  have hne : S.radius ≠ 0 := ne_of_gt hr
  have hnorm : sqrt ((P - S.center).x * (P - S.center).x + (P - S.center).y * (P - S.center).y
      + (P - S.center).z * (P - S.center).z) = S.radius := by
    have : (P - S.center).x * (P - S.center).x + (P - S.center).y * (P - S.center).y
        + (P - S.center).z * (P - S.center).z = S.radius * S.radius := hP
    rw [this]; exact hs.sqrt_mul_self (le_of_lt hr)
  have hx : (S.getNormalAtPoint sqrt P).x = (P.x - S.center.x) / S.radius := by
    show (P - S.center).x / sqrt _ = _
    rw [hnorm]; rfl
  have hy : (S.getNormalAtPoint sqrt P).y = (P.y - S.center.y) / S.radius := by
    show (P - S.center).y / sqrt _ = _
    rw [hnorm]; rfl
  have hz : (S.getNormalAtPoint sqrt P).z = (P.z - S.center.z) / S.radius := by
    show (P - S.center).z / sqrt _ = _
    rw [hnorm]; rfl
  have hP' : (P.x - S.center.x) * (P.x - S.center.x) + (P.y - S.center.y) * (P.y - S.center.y)
      + (P.z - S.center.z) * (P.z - S.center.z) = S.radius * S.radius := hP
  refine ⟨by rw [hx]; field_simp, by rw [hy]; field_simp, by rw [hz]; field_simp, ?_⟩
  unfold Vector3.dotProduct
  rw [hx, hy, hz]
  field_simp
  linear_combination hP'

/-- A ray that starts at `P + N * 0.001`, just outside a sphere of positive radius
over its surface point `P` with normal `N`, and meets that same sphere, has a
direction that points into the surface: `dot(D, N) < 0`. -/
theorem Sphere.self_shadow_backfacing {sqrt : F → F} (hs : IsSqrt sqrt) (S : Sphere F)
    (P D : Vector3 F) (hr : 0 < S.radius) (hP : S.onSurface P)
    (hhit : (S.intersect sqrt (P + S.getNormalAtPoint sqrt P * (1 / 1000 : F)) D).isSome) :
    Vector3.dotProduct D (S.getNormalAtPoint sqrt P) < 0 := by
  obtain ⟨hx, hy, hz, hN⟩ := Sphere.normal_spec hs S P hr hP
  set N := S.getNormalAtPoint sqrt P with hNdef
  set O := P + N * (1 / 1000 : F) with hOdef
  have hLx : (S.center - O).x = -(S.radius + 1 / 1000) * N.x := by
    simp only [hOdef, Vector3.sub_x, Vector3.add_x, Vector3.mul_x]; linear_combination hx
  have hLy : (S.center - O).y = -(S.radius + 1 / 1000) * N.y := by
    simp only [hOdef, Vector3.sub_y, Vector3.add_y, Vector3.mul_y]; linear_combination hy
  have hLz : (S.center - O).z = -(S.radius + 1 / 1000) * N.z := by
    simp only [hOdef, Vector3.sub_z, Vector3.add_z, Vector3.mul_z]; linear_combination hz
  have htca : S.tca O D = -(S.radius + 1 / 1000) * Vector3.dotProduct D N := by
    unfold Sphere.tca Vector3.dotProduct
    rw [hLx, hLy, hLz]; ring
  have hLL : Vector3.dotProduct (S.center - O) (S.center - O)
      = (S.radius + 1 / 1000) * (S.radius + 1 / 1000) := by
    have hN' : N.x * N.x + N.y * N.y + N.z * N.z = 1 := hN
    unfold Vector3.dotProduct
    rw [hLx, hLy, hLz]
    linear_combination (S.radius + 1 / 1000) * (S.radius + 1 / 1000) * hN'
  rw [Sphere.intersect_eq_of_isSqrt hs] at hhit
  by_cases hd2 : S.d2 O D > S.radius * S.radius
  · simp [hd2] at hhit
  · obtain ⟨h1, h2⟩ := Sphere.thc_spec hs S O D hd2
    have hsum : ¬ (S.tca O D + S.thc sqrt O D < 0) := by
      intro hneg
      have : S.tca O D - S.thc sqrt O D < 0 := by linarith
      simp [hd2, hneg, this] at hhit
    have hd2eq : S.d2 O D = (S.radius + 1 / 1000) * (S.radius + 1 / 1000)
        - S.tca O D * S.tca O D := by
      unfold Sphere.d2; rw [hLL]
    have hsq : S.thc sqrt O D * S.thc sqrt O D < S.tca O D * S.tca O D := by
      have hgap : S.radius * S.radius < (S.radius + 1 / 1000) * (S.radius + 1 / 1000) := by
        nlinarith
      rw [h2, hd2eq]; linarith
    have htpos : 0 < S.tca O D := by
      by_contra hle
      have hle' : S.tca O D ≤ 0 := not_lt.mp hle
      have := mul_nonneg (not_lt.mp hsum)
        (show 0 ≤ S.thc sqrt O D - S.tca O D by linarith)
      nlinarith
    rw [htca] at htpos
    by_contra hge
    have hge' : 0 ≤ Vector3.dotProduct D N := not_lt.mp hge
    have := mul_nonneg (show (0 : F) ≤ S.radius + 1 / 1000 by positivity) hge'
    linarith

/-- A light whose shadow ray, from over a surface point of a sphere `S` of positive
radius, meets any sphere of the list leaves the colour as it was: either the light is
skipped, or the nearest hit is `S` itself and then `cosTheta` is zero. -/
theorem shadeLight_of_shadow_hit {sqrt : F → F} (hs : IsSqrt sqrt) (spheres : List (Sphere F))
    (k : Nat) (S : Sphere F) (P c : Vector3 F) (L : Light F) (hk : spheres[k]? = some S)
    (hr : 0 < S.radius) (hP : S.onSurface P)
    (hocc : ∃ S' ∈ spheres, (S'.intersect sqrt (P + S.getNormalAtPoint sqrt P * (1 / 1000 : F))
      (Vector3.normalize sqrt (L.position - P))).isSome) :
    shadeLight sqrt spheres k S P (S.getNormalAtPoint sqrt P) c L = c := by
  rw [shadeLight_eq]
  obtain ⟨m, Sm, t, t', htr, hm, hSm, _⟩ := trace_hit_spec sqrt _ _ spheres hocc
  by_cases hmk : m = k
  · subst hmk
    rw [hk] at hm
    cases hm
    have hback := Sphere.self_shadow_backfacing hs S P
      (Vector3.normalize sqrt (L.position - P)) hr hP (by rw [hSm]; rfl)
    have hterm : lambertTerm sqrt S P (S.getNormalAtPoint sqrt P) L = ⟨0, 0, 0⟩ := by
      simp [lambertTerm, max_eq_right (le_of_lt hback), Vector3.ext_iff3]
    rw [hterm, Vector3.add_zero3]
    split_ifs <;> rfl
  · have hskip : shadowSkips sqrt spheres k P (S.getNormalAtPoint sqrt P) L = true := by
      simp only [shadowSkips, htr]
      simp [hmk]
    simp only [hskip, if_true]

/-- The camera ray down the depth axis meets the first sphere of `shadowScene` at the
parameters 2 and 4. -/
theorem shadowScene_front :
    Sphere.intersect Real.sqrt (⟨⟨0, 0, -3⟩, 1, ⟨1, 1, 1⟩, 1⟩ : Sphere ℝ) ⟨0, 0, 0⟩ ⟨0, 0, -1⟩
      = some (2, 4) := by
  rw [Sphere.intersect_eq_of_isSqrt isSqrt_real]
  norm_num [Sphere.d2, Sphere.tca, Sphere.thc, Vector3.dotProduct]

/-- The camera ray down the depth axis misses the second sphere of `shadowScene`. -/
theorem shadowScene_back :
    Sphere.intersect Real.sqrt (⟨⟨0, 0, 5⟩, 1, ⟨1, 1, 1⟩, 1⟩ : Sphere ℝ) ⟨0, 0, 0⟩ ⟨0, 0, -1⟩
      = none := by
  rw [Sphere.intersect_eq_of_isSqrt isSqrt_real]
  norm_num [Sphere.d2, Sphere.tca, Sphere.thc, Vector3.dotProduct]

/-- The result of `trace` on `shadowScene` for the camera ray down the depth axis. -/
theorem shadowScene_trace :
    trace Real.sqrt ⟨0, 0, 0⟩ ⟨0, 0, -1⟩ (shadowScene : List (Sphere ℝ)) none
      = ⟨true, some 2, some 0⟩ := by
  simp [trace, traceLoop, shadowScene, shadowScene_front, shadowScene_back, belowTnear]

/-- The normal of the first sphere of `shadowScene` at the hit point `(0, 0, -2)`. -/
theorem shadowScene_normal :
    Sphere.getNormalAtPoint Real.sqrt (⟨⟨0, 0, -3⟩, 1, ⟨1, 1, 1⟩, 1⟩ : Sphere ℝ)
      ((⟨0, 0, 0⟩ : Vector3 ℝ) + (⟨0, 0, -1⟩ : Vector3 ℝ) * (2 : ℝ)) = ⟨0, 0, 1⟩ := by
  rw [Vector3.ext_iff3]
  norm_num [Sphere.getNormalAtPoint, Vector3.normalize]

/-- A true square root returns 2 on 4. -/
theorem IsSqrt.sqrt_four {sqrt : F → F} (hs : IsSqrt sqrt) : sqrt 4 = 2 := by
  have h := hs.sqrt_mul_self (show (0 : F) ≤ 2 by norm_num)
  norm_num at h
  exact h

theorem stdMin_eq_min (a b : F) : stdMin a b = min a b := by
  unfold stdMin
  split_ifs with h
  · exact (min_eq_right (le_of_lt h)).symm
  · exact (min_eq_left (not_lt.mp h)).symm

theorem clamp_eq (v : F) : clamp 0 1 v = max 0 (min 1 v) := by
  unfold clamp
  rw [stdMax_eq_max, stdMin_eq_min]

/-- The byte of a channel is the floor of the clamped value times 255, which lies
between 0 and 255: neither the truncation of a negative value nor the reduction
modulo 256 ever applies. -/
theorem channelByte_eq_floor [FloorRing F] (v : F) :
    channelByte v = (⌊max 0 (min 1 v) * 255⌋).toNat
    ∧ 0 ≤ ⌊max 0 (min 1 v) * 255⌋ ∧ ⌊max 0 (min 1 v) * 255⌋ ≤ 255 := by
  have h0 : (0 : F) ≤ max 0 (min 1 v) := le_max_left _ _
  have h1 : max 0 (min 1 v) ≤ (1 : F) := max_le zero_le_one (min_le_left _ _)
  have hs0 : (0 : F) ≤ max 0 (min 1 v) * 255 := by linarith
  have hf0 : 0 ≤ ⌊max 0 (min 1 v) * 255⌋ := Int.floor_nonneg.mpr hs0
  have hf1 : ⌊max 0 (min 1 v) * 255⌋ < 256 := by
    rw [Int.floor_lt]
    push_cast
    linarith
  refine ⟨?_, hf0, by omega⟩
  simp only [channelByte, clamp_eq, hs0, if_true]
  rw [Int.emod_eq_of_lt hf0 hf1]

/-- A loop of writes `image[idx k] = val k` keeps the length of the buffer. -/
theorem foldl_set_length {ι α : Type} (idx : ι → Nat) (val : ι → α) (ws : List ι) :
    ∀ init : List α,
      (ws.foldl (fun image k => image.set (idx k) (val k)) init).length = init.length := by
  induction ws with
  | nil => intro init; rfl
  | cons a rest ih => intro init; rw [List.foldl_cons, ih, List.length_set]

/-- A loop of writes leaves a slot that no iteration writes as it was. -/
theorem foldl_set_untouched {ι α : Type} (idx : ι → Nat) (val : ι → α) (ws : List ι)
    (p : Nat) : ∀ init : List α, p ∉ ws.map idx →
      (ws.foldl (fun image k => image.set (idx k) (val k)) init)[p]? = init[p]? := by
  induction ws with
  | nil => intro init _; rfl
  | cons a rest ih =>
    intro init hp
    simp only [List.map_cons, List.mem_cons, not_or] at hp
    rw [List.foldl_cons, ih _ hp.2, List.getElem?_set_ne (Ne.symm hp.1)]

/-- A loop of writes to pairwise distinct slots leaves in the slot of the iteration `k`
the value that iteration wrote. -/
theorem foldl_set_written {ι α : Type} (idx : ι → Nat) (val : ι → α) (ws : List ι) (k : ι) :
    ∀ init : List α, (ws.map idx).Nodup → k ∈ ws → idx k < init.length →
      (ws.foldl (fun image k => image.set (idx k) (val k)) init)[idx k]? = some (val k) := by
  induction ws with
  | nil => intro init _ hk; exact absurd hk (List.not_mem_nil k)
  | cons a rest ih =>
    intro init hnd hk hlt
    rw [List.map_cons, List.nodup_cons] at hnd
    rw [List.foldl_cons]
    by_cases hin : k ∈ rest
    · exact ih _ hnd.2 hin (by rw [List.length_set]; exact hlt)
    · have hka : k = a := by
        rcases List.mem_cons.mp hk with h | h
        · exact h
        · exact absurd h hin
      subst hka
      rw [foldl_set_untouched idx val rest (idx k) _ hnd.1, List.getElem?_set_self hlt]

/-- The iterations of the pixel loops are the pairs of a column and a row of the image. -/
theorem mem_renderPixels (width height i j : Nat) :
    (i, j) ∈ renderPixels width height ↔ i < width ∧ j < height := by
  simp only [renderPixels, List.mem_flatMap, List.mem_range, List.mem_map, Prod.mk.injEq]
  constructor
  · rintro ⟨a, ha, b, hb, rfl, rfl⟩
    exact ⟨ha, hb⟩
  · rintro ⟨hi, hj⟩
    exact ⟨i, hi, j, hj, rfl, rfl⟩

/-- The buffer index of a pixel inside the image is inside the buffer. -/
theorem pixel_index_lt (width height i j : Nat) (hi : i < width) (hj : j < height) :
    j * width + i < width * height := by
  calc j * width + i < j * width + width := Nat.add_lt_add_left hi _
    _ = (j + 1) * width := by ring
    _ ≤ height * width := Nat.mul_le_mul_right width hj
    _ = width * height := Nat.mul_comm _ _

/-- The buffer index determines the column and the row of the pixel. -/
theorem pixel_index_inj (width i j i' j' : Nat) (hi : i < width) (hi' : i' < width)
    (h : j * width + i = j' * width + i') : i = i' ∧ j = j' := by
  have hw : 0 < width := Nat.lt_of_le_of_lt (Nat.zero_le i) hi
  have hmod : (j * width + i) % width = (j' * width + i') % width := by rw [h]
  have hdiv : (j * width + i) / width = (j' * width + i') / width := by rw [h]
  rw [Nat.add_comm (j * width), Nat.add_comm (j' * width), Nat.add_mul_mod_self_right,
    Nat.add_mul_mod_self_right, Nat.mod_eq_of_lt hi, Nat.mod_eq_of_lt hi'] at hmod
  rw [Nat.add_comm (j * width), Nat.add_comm (j' * width), Nat.add_mul_div_right _ _ hw,
    Nat.add_mul_div_right _ _ hw, Nat.div_eq_of_lt hi, Nat.div_eq_of_lt hi'] at hdiv
  exact ⟨hmod, by omega⟩

/-- No iteration of the pixel loops runs twice. -/
theorem nodup_renderPixels (width height : Nat) : (renderPixels width height).Nodup := by
  unfold renderPixels
  rw [List.nodup_flatMap]
  constructor
  · intro i _
    exact (List.nodup_range height).map fun a b hab => (Prod.mk.injEq _ _ _ _ ▸ hab).2
  · refine (List.nodup_range width).imp ?_
    intro a b hab
    intro x hxa hxb
    simp only [List.mem_map] at hxa hxb
    obtain ⟨_, _, rfl⟩ := hxa
    obtain ⟨_, _, hx⟩ := hxb
    exact hab (Prod.mk.injEq _ _ _ _ ▸ hx).1.symm

/-- No two iterations of the pixel loops write the same slot of the buffer. -/
theorem nodup_renderWrites (width height : Nat) : (renderWrites width height).Nodup := by
  unfold renderWrites
  refine List.Nodup.map_on ?_ (nodup_renderPixels width height)
  rintro ⟨i, j⟩ hx ⟨i', j'⟩ hy hxy
  rw [mem_renderPixels] at hx hy
  obtain ⟨h1, h2⟩ := pixel_index_inj width i j i' j' hx.1 hy.1 hxy
  rw [h1, h2]

/-- The slots the pixel loops write are the slots of the buffer. -/
theorem mem_renderWrites (width height p : Nat) :
    p ∈ renderWrites width height ↔ p < width * height := by
  unfold renderWrites
  rw [List.mem_map]
  constructor
  · rintro ⟨⟨i, j⟩, hmem, rfl⟩
    rw [mem_renderPixels] at hmem
    exact pixel_index_lt width height i j hmem.1 hmem.2
  · intro hp
    have hw : 0 < width := by
      rcases Nat.eq_zero_or_pos width with h | h
      · rw [h, Nat.zero_mul] at hp; exact absurd hp (Nat.not_lt_zero p)
      · exact h
    refine ⟨(p % width, p / width), ?_, ?_⟩
    · rw [mem_renderPixels]
      exact ⟨Nat.mod_lt p hw, (Nat.div_lt_iff_lt_mul hw).mpr (by rw [Nat.mul_comm]; exact hp)⟩
    · exact Nat.div_add_mod' p width

/-- After the pixel loops the buffer has `width * height` slots, and the slot
`j * width + i` holds the colour computed for the pixel of column `i` and row `j`. -/
theorem renderImage_spec (sqrt tan : F → F) (width height : Nat) (spheres : List (Sphere F))
    (lights : List (Light F)) :
    (renderImage sqrt tan width height spheres lights).length = width * height
    ∧ ∀ i j : Nat, i < width → j < height →
        (renderImage sqrt tan width height spheres lights)[j * width + i]?
          = some (pixelColor sqrt tan width height spheres lights i j) := by
  constructor
  · unfold renderImage
    rw [foldl_set_length (fun ij : Nat × Nat => ij.2 * width + ij.1)
      (fun ij => pixelColor sqrt tan width height spheres lights ij.1 ij.2)]
    exact List.length_replicate _ _
  · intro i j hi hj
    exact foldl_set_written (fun ij : Nat × Nat => ij.2 * width + ij.1)
      (fun ij => pixelColor sqrt tan width height spheres lights ij.1 ij.2)
      (renderPixels width height) (i, j) _ (nodup_renderWrites width height)
      ((mem_renderPixels width height i j).mpr ⟨hi, hj⟩)
      (by rw [List.length_replicate]; exact pixel_index_lt width height i j hi hj)

/-- Reading the slots `0 .. n - 1` of a buffer of `n` slots visits the buffer in order. -/
theorem range_map_getD {α : Type} (l : List α) (d : α) :
    (List.range l.length).map (fun i => l.getD i d) = l := by
  apply List.ext_getElem
  · simp
  · intro n h1 h2
    simp only [List.getElem_map, List.getElem_range, List.getD_eq_getElem?_getD,
      List.getElem?_eq_getElem h2, Option.getD_some]

/-- The serialization loop writes the three bytes of every pixel, in buffer order. -/
theorem pixelData_eq_flatMap [FloorRing F] (width height : Nat) (image : List (Vector3 F))
    (hlen : image.length = width * height) :
    pixelData width height image = image.flatMap pixelBytes := by
  have h := range_map_getD image (default : Vector3 F)
  unfold pixelData
  rw [Nat.mul_comm height width, ← hlen]
  conv_rhs => rw [← h]
  rw [List.flatMap_map]

/-- Three bytes are written per pixel. -/
theorem length_flatMap_pixelBytes [FloorRing F] (image : List (Vector3 F)) :
    (image.flatMap pixelBytes).length = 3 * image.length := by
  induction image with
  | nil => rfl
  | cons c rest ih =>
    rw [List.flatMap_cons, List.length_append, ih, List.length_cons]
    simp only [pixelBytes, List.length_cons, List.length_nil]
    omega

/-- The bytes of the pixel in slot `p` of the buffer start at offset `3 * p` of the
pixel data. -/
theorem getElem?_flatMap_pixelBytes [FloorRing F] (image : List (Vector3 F)) :
    ∀ (p : Nat) (c : Vector3 F), image[p]? = some c →
      (image.flatMap pixelBytes)[3 * p]? = some (channelByte c.x)
      ∧ (image.flatMap pixelBytes)[3 * p + 1]? = some (channelByte c.y)
      ∧ (image.flatMap pixelBytes)[3 * p + 2]? = some (channelByte c.z) := by
  induction image with
  | nil => intro p c h; simp at h
  | cons a rest ih =>
    intro p c h
    cases p with
    | zero =>
      simp only [List.getElem?_cons_zero, Option.some.injEq] at h
      subst h
      simp [pixelBytes]
    | succ q =>
      simp only [List.getElem?_cons_succ] at h
      obtain ⟨h0, h1, h2⟩ := ih q c h
      have e0 : 3 * (q + 1) = 3 * q + 3 := by ring
      have e1 : 3 * q + 3 + 1 = 3 * q + 1 + 3 := by ring
      have e2 : 3 * q + 3 + 2 = 3 * q + 2 + 3 := by ring
      have hl : (pixelBytes a).length = 3 := rfl
      rw [List.flatMap_cons, e0, e1, e2]
      refine ⟨?_, ?_, ?_⟩
      · rw [List.getElem?_append_right (by rw [hl]; omega), hl, Nat.add_sub_cancel]; exact h0
      · rw [List.getElem?_append_right (by rw [hl]; omega), hl, Nat.add_sub_cancel]; exact h1
      · rw [List.getElem?_append_right (by rw [hl]; omega), hl, Nat.add_sub_cancel]; exact h2

/-- The decimal constant `PI` is positive and below 4. -/
theorem PI_bounds : (0 : F) < PI ∧ (PI : F) < 4 := by
  unfold PI
  constructor <;> norm_num

/-- With the real tangent the local `scale` of `render` is positive. -/
theorem renderScale_real_pos : (0 : ℝ) < renderScale Real.tan := by
  unfold renderScale
  have hb := PI_bounds (F := ℝ)
  apply Real.tan_pos_of_pos_of_lt_pi_div_two
  · linarith [hb.1]
  · have := Real.pi_gt_three
    linarith [hb.2]

/-- The camera coordinate `x` grows with the column, when `scale` is positive. -/
theorem pixelX_lt (tan : F → F) (width height i i' : Nat) (hscale : 0 < renderScale tan)
    (hw : 0 < width) (hh : 0 < height) (hi : i < i') :
    pixelX tan width height i < pixelX tan width height i' := by
  have hwF : (0 : F) < (width : F) := by exact_mod_cast hw
  have hhF : (0 : F) < (height : F) := by exact_mod_cast hh
  have hiF : (i : F) < (i' : F) := by exact_mod_cast hi
  have hk : (0 : F) < renderScale tan * ((width : F) / (height : F)) :=
    mul_pos hscale (div_pos hwF hhF)
  have hinv : (0 : F) < 1 / (width : F) := one_div_pos.mpr hwF
  have hstep : ((i : F) + 1 / 2) * (1 / (width : F)) < ((i' : F) + 1 / 2) * (1 / (width : F)) :=
    mul_lt_mul_of_pos_right (by linarith) hinv
  have hlt : 2 * (((i : F) + 1 / 2) * (1 / (width : F))) - 1
      < 2 * (((i' : F) + 1 / 2) * (1 / (width : F))) - 1 := by linarith
  have := mul_lt_mul_of_pos_right hlt hk
  simp only [pixelX]
  linarith [this]

/-- The camera coordinate `y` falls as the row grows, when `scale` is positive. -/
theorem pixelY_lt (tan : F → F) (height j j' : Nat) (hscale : 0 < renderScale tan)
    (hh : 0 < height) (hj : j < j') :
    pixelY tan height j' < pixelY tan height j := by
  have hhF : (0 : F) < (height : F) := by exact_mod_cast hh
  have hjF : (j : F) < (j' : F) := by exact_mod_cast hj
  have hinv : (0 : F) < 1 / (height : F) := one_div_pos.mpr hhF
  have hstep : ((j : F) + 1 / 2) * (1 / (height : F)) < ((j' : F) + 1 / 2) * (1 / (height : F)) :=
    mul_lt_mul_of_pos_right (by linarith) hinv
  have hlt : 1 - 2 * (((j' : F) + 1 / 2) * (1 / (height : F)))
      < 1 - 2 * (((j : F) + 1 / 2) * (1 / (height : F))) := by linarith
  have := mul_lt_mul_of_pos_right hlt hscale
  simp only [pixelY]
  exact this

/-- The three bytes of the pixel of column `i` and row `j` are the bytes
`3 * (j * width + i)` and the two after it of the pixel data `render` writes. -/
theorem renderWith_pixel [FloorRing F] (sqrt tan : F → F) (width height : Nat)
    (spheres : List (Sphere F)) (lights : List (Light F)) (i j : Nat) (hi : i < width)
    (hj : j < height) :
    (renderWith sqrt tan width height spheres lights)[
        (ppmHeader width height).length + 3 * (j * width + i)]?
      = some (channelByte (pixelColor sqrt tan width height spheres lights i j).x)
    ∧ (renderWith sqrt tan width height spheres lights)[
        (ppmHeader width height).length + (3 * (j * width + i) + 1)]?
      = some (channelByte (pixelColor sqrt tan width height spheres lights i j).y)
    ∧ (renderWith sqrt tan width height spheres lights)[
        (ppmHeader width height).length + (3 * (j * width + i) + 2)]?
      = some (channelByte (pixelColor sqrt tan width height spheres lights i j).z) := by
  obtain ⟨hlen, hslot⟩ := renderImage_spec sqrt tan width height spheres lights
  obtain ⟨h0, h1, h2⟩ := getElem?_flatMap_pixelBytes _ (j * width + i) _ (hslot i j hi hj)
  unfold renderWith
  rw [pixelData_eq_flatMap width height _ hlen]
  refine ⟨?_, ?_, ?_⟩
  · rw [List.getElem?_append_right (Nat.le_add_right _ _), Nat.add_sub_cancel_left]; exact h0
  · rw [List.getElem?_append_right (Nat.le_add_right _ _), Nat.add_sub_cancel_left]; exact h1
  · rw [List.getElem?_append_right (Nat.le_add_right _ _), Nat.add_sub_cancel_left]; exact h2

/-- If `trace`, called with a null `hitSphere`, returns true, some sphere of the list is
intersected. -/
theorem exists_intersected_of_hit (sqrt : F → F) (o d : Vector3 F) (spheres : List (Sphere F))
    (h : (trace sqrt o d spheres none).hitSphere ≠ none) :
    ∃ S ∈ spheres, (S.intersect sqrt o d).isSome := by
  by_contra hno
  have hnone : ∀ S ∈ spheres, S.intersect sqrt o d = none := by
    intro S hS
    by_contra hne
    exact hno ⟨S, hS, Option.ne_none_iff_isSome.mp hne⟩
  rw [trace_miss sqrt o d spheres hnone] at h
  exact h rfl

/-- The flag `trace` returns says whether the pointer it leaves is null. -/
theorem trace_hit_eq (sqrt : F → F) (o d : Vector3 F) (spheres : List (Sphere F)) :
    (trace sqrt o d spheres none).hit = (trace sqrt o d spheres none).hitSphere.isSome := rfl

/-- Over a surface point of a sphere of positive radius, the body of the light loop and
its variant without the self-hit exception compute the same colour. -/
theorem shadeLight_eq_anyHit {sqrt : F → F} (hs : IsSqrt sqrt) (spheres : List (Sphere F))
    (k : Nat) (S : Sphere F) (P c : Vector3 F) (L : Light F) (hk : spheres[k]? = some S)
    (hr : 0 < S.radius) (hP : S.onSurface P) :
    shadeLight sqrt spheres k S P (S.getNormalAtPoint sqrt P) c L
      = shadeLightAnyHit sqrt spheres S P (S.getNormalAtPoint sqrt P) c L := by
  by_cases hhit : (trace sqrt (P + S.getNormalAtPoint sqrt P * (1 / 1000 : F))
      (Vector3.normalize sqrt (L.position - P)) spheres none).hit = true
  · have hne : (trace sqrt (P + S.getNormalAtPoint sqrt P * (1 / 1000 : F))
        (Vector3.normalize sqrt (L.position - P)) spheres none).hitSphere ≠ none := by
      rw [trace_hit_eq] at hhit
      exact Option.ne_none_iff_isSome.mpr hhit
    rw [shadeLight_of_shadow_hit hs spheres k S P c L hk hr hP
      (exists_intersected_of_hit sqrt _ _ spheres hne)]
    simp only [shadeLightAnyHit, hhit, if_true]
  · simp only [shadeLight, shadeLightAnyHit, hhit, Bool.false_and, Bool.false_eq_true, if_false]

/-- The hit branch of `castRayAnyHit`, once the result of `trace` is known. -/
theorem castRayAnyHit_of_hit (sqrt : F → F) (o d : Vector3 F) (spheres : List (Sphere F))
    (lights : List (Light F)) (k : Nat) (S : Sphere F) (t0 : F)
    (htr : trace sqrt o d spheres none = ⟨true, some t0, some k⟩)
    (hk : spheres[k]? = some S) :
    castRayAnyHit sqrt o d spheres lights
      = lights.foldl (shadeLightAnyHit sqrt spheres S (o + d * t0)
          (S.getNormalAtPoint sqrt (o + d * t0))) ⟨0, 0, 0⟩ := by
  have hS : spheres.getD k default = S := by
    rw [List.getD_eq_getElem?_getD, hk]; rfl
  simp only [castRayAnyHit, htr, if_true, Option.getD_some, hS]

/-- The body of the light loop reads the position and the intensity of the light only. -/
theorem shadeLight_sameButColor (sqrt : F → F) (spheres : List (Sphere F)) (k : Nat)
    (S : Sphere F) (P N c : Vector3 F) (a b : Light F) (h : a.sameButColor b) :
    shadeLight sqrt spheres k S P N c a = shadeLight sqrt spheres k S P N c b := by
  simp only [shadeLight, h.1, h.2]

/-- The light loop computes the same colour on two light lists that agree on positions
and intensities. -/
theorem foldl_shadeLight_sameButColor (sqrt : F → F) (spheres : List (Sphere F)) (k : Nat)
    (S : Sphere F) (P N : Vector3 F) (lights lights' : List (Light F))
    (h : List.Forall₂ Light.sameButColor lights lights') :
    ∀ c : Vector3 F, lights.foldl (shadeLight sqrt spheres k S P N) c
      = lights'.foldl (shadeLight sqrt spheres k S P N) c := by
  induction h with
  | nil => intro c; rfl
  | cons hab _ ih =>
    intro c
    rw [List.foldl_cons, List.foldl_cons, shadeLight_sameButColor sqrt spheres k S P N c _ _ hab]
    exact ih _

/-- The unit direction from the hit point `(0, 0, -2)` of `shadowScene` to `cameraLight`. -/
theorem cameraLight_lightDir :
    Vector3.normalize Real.sqrt ((cameraLight : Light ℝ).position
      - ((⟨0, 0, 0⟩ : Vector3 ℝ) + (⟨0, 0, -1⟩ : Vector3 ℝ) * (2 : ℝ))) = ⟨0, 0, 1⟩ := by
  rw [Vector3.ext_iff3]
  norm_num [Vector3.normalize, cameraLight, real_sqrt_four]

/-- The shadow ray toward `cameraLight` does not meet the sphere it starts from. -/
theorem cameraLight_shadow_front :
    Sphere.intersect Real.sqrt (⟨⟨0, 0, -3⟩, 1, ⟨1, 1, 1⟩, 1⟩ : Sphere ℝ)
      ((⟨0, 0, 0⟩ : Vector3 ℝ) + (⟨0, 0, -1⟩ : Vector3 ℝ) * (2 : ℝ)
        + (⟨0, 0, 1⟩ : Vector3 ℝ) * (1 / 1000 : ℝ)) ⟨0, 0, 1⟩ = none := by
  rw [Sphere.intersect_eq_of_isSqrt isSqrt_real]
  norm_num [Sphere.d2, Sphere.tca, Sphere.thc, Vector3.dotProduct]

/-- The shadow ray toward `cameraLight` meets the second sphere of `shadowScene` at the
parameters 5.999 and 7.999, beyond the light. -/
theorem cameraLight_shadow_back :
    Sphere.intersect Real.sqrt (⟨⟨0, 0, 5⟩, 1, ⟨1, 1, 1⟩, 1⟩ : Sphere ℝ)
      ((⟨0, 0, 0⟩ : Vector3 ℝ) + (⟨0, 0, -1⟩ : Vector3 ℝ) * (2 : ℝ)
        + (⟨0, 0, 1⟩ : Vector3 ℝ) * (1 / 1000 : ℝ)) ⟨0, 0, 1⟩
      = some (5999 / 1000, 7999 / 1000) := by
  rw [Sphere.intersect_eq_of_isSqrt isSqrt_real]
  norm_num [Sphere.d2, Sphere.tca, Sphere.thc, Vector3.dotProduct]

/-- The result of the shadow `trace` toward `cameraLight` on `shadowScene`. -/
theorem cameraLight_shadow_trace :
    trace Real.sqrt
      ((⟨0, 0, 0⟩ : Vector3 ℝ) + (⟨0, 0, -1⟩ : Vector3 ℝ) * (2 : ℝ)
        + (⟨0, 0, 1⟩ : Vector3 ℝ) * (1 / 1000 : ℝ)) ⟨0, 0, 1⟩
      (shadowScene : List (Sphere ℝ)) none = ⟨true, some (5999 / 1000), some 1⟩ := by
  simp only [trace, traceLoop, shadowScene, cameraLight_shadow_front, cameraLight_shadow_back]
  simp [belowTnear]

end Lemmas

section Claims

variable {F : Type} [LinearOrderedField F]

/-- C8: when the ray intersects some sphere, `trace` reports a hit sphere `S` (of index
`k`) at distance `t0`, and with `P = origin + direction * t0` and `N` the normal of `S`
at `P`, the colour `castRay` returns is the sum, over the lights the shadow test does
not skip, of `S.color * max(dot(D, N), 0) * (L.intensity * S.albedo / PI)`; the term
of a light with `dot(D, N) ≤ 0` is the zero vector. -/
theorem castRay_eq_lambertSum (sqrt : F → F) (origin direction : Vector3 F)
    (spheres : List (Sphere F)) (lights : List (Light F))
    (h : ∃ S ∈ spheres, (S.intersect sqrt origin direction).isSome) :
    ∃ (k : Nat) (S : Sphere F) (t0 : F),
      trace sqrt origin direction spheres none = ⟨true, some t0, some k⟩
      ∧ spheres[k]? = some S
      ∧ castRay sqrt origin direction spheres lights
          = lambertSum sqrt spheres k S (origin + direction * t0)
              (S.getNormalAtPoint sqrt (origin + direction * t0)) lights
      ∧ ∀ L : Light F,
          Vector3.dotProduct
            (Vector3.normalize sqrt (L.position - (origin + direction * t0)))
            (S.getNormalAtPoint sqrt (origin + direction * t0)) ≤ 0 →
          lambertTerm sqrt S (origin + direction * t0)
            (S.getNormalAtPoint sqrt (origin + direction * t0)) L = ⟨0, 0, 0⟩ := by
  obtain ⟨k, S, t0, t1, htr, hk, _⟩ := trace_hit_spec sqrt origin direction spheres h
  refine ⟨k, S, t0, htr, hk, ?_, ?_⟩
  · rw [castRay_of_hit sqrt origin direction spheres lights k S t0 htr hk, foldl_shadeLight]
    simp [Vector3.ext_iff3]
  · intro L hL
    simp [lambertTerm, max_eq_right hL, Vector3.ext_iff3]

/-- C8 on the scene of `main`, for the camera ray down the depth axis. -/
theorem castRay_eq_lambertSum_witness :
    ∃ (k : Nat) (S : Sphere ℝ) (t0 : ℝ),
      trace Real.sqrt ⟨0, 0, 0⟩ ⟨0, 0, -1⟩ (mainSpheres : List (Sphere ℝ)) none
        = ⟨true, some t0, some k⟩
      ∧ (mainSpheres : List (Sphere ℝ))[k]? = some S
      ∧ castRay Real.sqrt ⟨0, 0, 0⟩ ⟨0, 0, -1⟩ (mainSpheres : List (Sphere ℝ)) mainLights
          = lambertSum Real.sqrt mainSpheres k S
              ((⟨0, 0, 0⟩ : Vector3 ℝ) + (⟨0, 0, -1⟩ : Vector3 ℝ) * t0)
              (S.getNormalAtPoint Real.sqrt
                ((⟨0, 0, 0⟩ : Vector3 ℝ) + (⟨0, 0, -1⟩ : Vector3 ℝ) * t0)) mainLights :=
  (castRay_eq_lambertSum Real.sqrt ⟨0, 0, 0⟩ ⟨0, 0, -1⟩ mainSpheres mainLights
    ⟨mainSphere0, by simp [mainSpheres], by simp [mainSphere0_intersect]⟩).imp
    fun _ hk => hk.imp fun _ hS => hS.imp fun _ h => ⟨h.1, h.2.1, h.2.2.1⟩

/-- C9: when the ray intersects no sphere of the scene, whatever the lights,
`castRay` returns the colour `(0.5, 0.5, 0.5)`, and the three bytes `render` writes
for that colour are 127, 127, 127. -/
theorem castRay_miss_background [FloorRing F] (sqrt : F → F) (origin direction : Vector3 F)
    (spheres : List (Sphere F)) (lights : List (Light F))
    (h : ∀ S ∈ spheres, S.intersect sqrt origin direction = none) :
    castRay sqrt origin direction spheres lights = ⟨1 / 2, 1 / 2, 1 / 2⟩
    ∧ pixelBytes (castRay sqrt origin direction spheres lights) = [127, 127, 127] := by
  have hc : castRay sqrt origin direction spheres lights = ⟨1 / 2, 1 / 2, 1 / 2⟩ := by
    simp only [castRay, trace_miss sqrt origin direction spheres h]
    rfl
  refine ⟨hc, ?_⟩
  rw [hc]
  simp only [pixelBytes, channelByte_half]

/-- C9 on the scene of `main`, for a ray from the camera straight up: its line stays 30
away from every centre. -/
theorem castRay_miss_background_witness :
    castRay Real.sqrt ⟨0, 0, 0⟩ ⟨0, 1, 0⟩ (mainSpheres : List (Sphere ℝ)) mainLights
      = ⟨1 / 2, 1 / 2, 1 / 2⟩
    ∧ pixelBytes (castRay Real.sqrt ⟨0, 0, 0⟩ ⟨0, 1, 0⟩ (mainSpheres : List (Sphere ℝ))
        mainLights) = [127, 127, 127] :=
  castRay_miss_background Real.sqrt ⟨0, 0, 0⟩ ⟨0, 1, 0⟩ mainSpheres mainLights (by
    intro S hS
    simp only [mainSpheres, mainSphere0, List.mem_cons, List.mem_singleton,
      List.not_mem_nil, or_false] at hS
    rcases hS with rfl | rfl | rfl <;>
      · rw [Sphere.intersect_eq]
        norm_num [Sphere.d2, Sphere.tca, Vector3.dotProduct])

/-- C10: with an empty light list `castRay` returns black `(0, 0, 0)` when the ray
intersects some sphere of the list and the background gray `(0.5, 0.5, 0.5)` when it
intersects none. -/
theorem castRay_no_lights (sqrt : F → F) (origin direction : Vector3 F)
    (spheres : List (Sphere F)) :
    castRay sqrt origin direction spheres []
      = if spheres.any (fun S => (S.intersect sqrt origin direction).isSome)
        then ⟨0, 0, 0⟩ else ⟨1 / 2, 1 / 2, 1 / 2⟩ := by
  by_cases h : ∃ S ∈ spheres, (S.intersect sqrt origin direction).isSome
  · obtain ⟨k, S, t0, t1, htr, _⟩ := trace_hit_spec sqrt origin direction spheres h
    have hany : spheres.any (fun S => (S.intersect sqrt origin direction).isSome) = true :=
      List.any_eq_true.mpr h
    simp only [castRay, htr, hany, if_true, List.foldl_nil]
  · have hnone : ∀ S ∈ spheres, S.intersect sqrt origin direction = none := by
      intro S hS
      by_contra hne
      exact h ⟨S, hS, Option.ne_none_iff_isSome.mp hne⟩
    have hany : ¬ spheres.any (fun S => (S.intersect sqrt origin direction).isSome) = true :=
      fun hc => h (List.any_eq_true.mp hc)
    simp only [castRay, trace_miss sqrt origin direction spheres hnone, hany, if_false]
    rfl

/-- C11: for the first sphere of `main`, centre `(0, 0, -30)` and radius 2, and the ray
from `(0, 0, 0)` with direction `(0, 0, -1)`, `Sphere::intersect` returns true with
`t0 = 28` (and `t1 = 32`), `trace` on the scene of `main` reports that sphere at
distance 28, the hit point `origin + direction * t0` of `castRay` is `(0, 0, -28)`,
and `getNormalAtPoint` of the hit point is `(0, 0, 1)`. -/
theorem main_center_ray {sqrt : F → F} (hs : IsSqrt sqrt) :
    Sphere.intersect sqrt (mainSphere0 : Sphere F) ⟨0, 0, 0⟩ ⟨0, 0, -1⟩ = some (28, 32)
    ∧ trace sqrt ⟨0, 0, 0⟩ ⟨0, 0, -1⟩ (mainSpheres : List (Sphere F)) none
        = ⟨true, some 28, some 0⟩
    ∧ ((⟨0, 0, 0⟩ : Vector3 F) + (⟨0, 0, -1⟩ : Vector3 F) * (28 : F)) = ⟨0, 0, -28⟩
    ∧ Sphere.getNormalAtPoint sqrt (mainSphere0 : Sphere F)
        ((⟨0, 0, 0⟩ : Vector3 F) + (⟨0, 0, -1⟩ : Vector3 F) * (28 : F)) = ⟨0, 0, 1⟩ := by
  have h4 := hs.sqrt_four
  have h0 : Sphere.intersect sqrt (mainSphere0 : Sphere F) ⟨0, 0, 0⟩ ⟨0, 0, -1⟩
      = some (28, 32) := by
    rw [Sphere.intersect_eq_of_isSqrt hs]
    norm_num [Sphere.d2, Sphere.tca, Sphere.thc, Vector3.dotProduct, mainSphere0, h4]
  have h1 : Sphere.intersect sqrt (⟨⟨-7, 0, -30⟩, 2, ⟨31 / 100, 1, 36 / 100⟩, 7 / 10⟩ : Sphere F)
      ⟨0, 0, 0⟩ ⟨0, 0, -1⟩ = none := by
    rw [Sphere.intersect_eq]
    norm_num [Sphere.d2, Sphere.tca, Vector3.dotProduct]
  have h2 : Sphere.intersect sqrt (⟨⟨7, 0, -30⟩, 2, ⟨36 / 100, 32 / 100, 1⟩, 7 / 10⟩ : Sphere F)
      ⟨0, 0, 0⟩ ⟨0, 0, -1⟩ = none := by
    rw [Sphere.intersect_eq]
    norm_num [Sphere.d2, Sphere.tca, Vector3.dotProduct]
  refine ⟨h0, ?_, ?_, ?_⟩
  · simp [trace, traceLoop, mainSpheres, h0, h1, h2, belowTnear]
  · rw [Vector3.ext_iff3]
    norm_num
  · rw [Vector3.ext_iff3]
    norm_num [Sphere.getNormalAtPoint, Vector3.normalize, mainSphere0, h4]

/-- C11 in the real numbers, with the real square root. -/
theorem main_center_ray_witness :
    Sphere.intersect Real.sqrt (mainSphere0 : Sphere ℝ) ⟨0, 0, 0⟩ ⟨0, 0, -1⟩ = some (28, 32)
    ∧ trace Real.sqrt ⟨0, 0, 0⟩ ⟨0, 0, -1⟩ (mainSpheres : List (Sphere ℝ)) none
        = ⟨true, some 28, some 0⟩
    ∧ ((⟨0, 0, 0⟩ : Vector3 ℝ) + (⟨0, 0, -1⟩ : Vector3 ℝ) * (28 : ℝ)) = ⟨0, 0, -28⟩
    ∧ Sphere.getNormalAtPoint Real.sqrt (mainSphere0 : Sphere ℝ)
        ((⟨0, 0, 0⟩ : Vector3 ℝ) + (⟨0, 0, -1⟩ : Vector3 ℝ) * (28 : ℝ)) = ⟨0, 0, 1⟩ :=
  main_center_ray isSqrt_real

/-- C13: the byte `render` writes for a channel value `v` is the truncation of
`255 * max(0, min(1, v))`; it is at most 255, it is 0 for `v ≤ 0` and 255 for `v ≥ 1`,
it is `floor(255 * v)` for `v` in `[0, 1]`, and it does not decrease when `v` grows. -/
theorem channelByte_spec [FloorRing F] (v : F) :
    clamp 0 1 v = max 0 (min 1 v)
    ∧ (channelByte v : Int) = ⌊255 * clamp 0 1 v⌋
    ∧ channelByte v ≤ 255
    ∧ (v ≤ 0 → channelByte v = 0)
    ∧ (1 ≤ v → channelByte v = 255)
    ∧ (0 ≤ v → v ≤ 1 → (channelByte v : Int) = ⌊255 * v⌋)
    ∧ (∀ w : F, v ≤ w → channelByte v ≤ channelByte w) := by
  obtain ⟨heq, hf0, hf1⟩ := channelByte_eq_floor v
  have hint : (channelByte v : Int) = ⌊max 0 (min 1 v) * 255⌋ := by
    rw [heq, Int.toNat_of_nonneg hf0]
  refine ⟨clamp_eq v, ?_, ?_, ?_, ?_, ?_, ?_⟩
  · rw [hint, clamp_eq, mul_comm]
  · have : (channelByte v : Int) ≤ 255 := by rw [hint]; exact hf1
    exact_mod_cast this
  · intro hv
    have hc : max 0 (min 1 v) = 0 := max_eq_left (le_trans (min_le_right _ _) hv)
    rw [heq, hc]
    simp
  · intro hv
    have hc : max 0 (min 1 v) = 1 := by
      rw [min_eq_left hv]; exact max_eq_right zero_le_one
    have hfl : ⌊(1 : F) * 255⌋ = 255 := by
      rw [Int.floor_eq_iff]; constructor <;> norm_num
    rw [heq, hc, hfl]
    rfl
  · intro hv0 hv1
    have hc : max 0 (min 1 v) = v := by
      rw [min_eq_right hv1]; exact max_eq_right hv0
    rw [hint, hc, mul_comm]
  · intro w hvw
    obtain ⟨heqw, hw0, _⟩ := channelByte_eq_floor w
    rw [heq, heqw]
    apply Int.toNat_le_toNat
    apply Int.floor_le_floor
    have : max 0 (min 1 v) ≤ max 0 (min 1 w) := max_le_max (le_refl _) (min_le_min (le_refl _) hvw)
    linarith

/-- C14: the bytes `render` writes, for any `width` and `height`, are the ASCII header
`P6`, newline, `width`, space, `height`, newline, `255`, newline (the numbers in
decimal), followed by the three bytes (red, green, blue) of every pixel in buffer
order, `3 * width * height` bytes in all; with `width = 640` and `height = 480` that
is the header `P6\n640 480\n255\n` followed by 921600 bytes. -/
theorem render_output_format [FloorRing F] (sqrt tan : F → F) (width height : Nat)
    (spheres : List (Sphere F)) (lights : List (Light F)) :
    renderWith sqrt tan width height spheres lights
      = ("P6\n" ++ toString width ++ " " ++ toString height ++ "\n255\n").toList.map Char.toNat
        ++ (renderImage sqrt tan width height spheres lights).flatMap
            (fun c => [channelByte c.x, channelByte c.y, channelByte c.z])
    ∧ ((renderImage sqrt tan width height spheres lights).flatMap
        (fun c => [channelByte c.x, channelByte c.y, channelByte c.z])).length
        = 3 * width * height
    ∧ ∃ pixels : List Nat,
        render sqrt tan spheres lights
          = ("P6\n640 480\n255\n").toList.map Char.toNat ++ pixels
        ∧ pixels.length = 921600 := by
  have hfmt : ∀ w h : Nat, renderWith sqrt tan w h spheres lights
      = ppmHeader w h ++ (renderImage sqrt tan w h spheres lights).flatMap pixelBytes := by
    intro w h
    unfold renderWith
    rw [pixelData_eq_flatMap w h _ (renderImage_spec sqrt tan w h spheres lights).1]
  have hlen : ∀ w h : Nat,
      ((renderImage sqrt tan w h spheres lights).flatMap pixelBytes).length = 3 * w * h := by
    intro w h
    rw [length_flatMap_pixelBytes, (renderImage_spec sqrt tan w h spheres lights).1, Nat.mul_assoc]
  refine ⟨hfmt width height, hlen width height, ?_⟩
  refine ⟨(renderImage sqrt tan 640 480 spheres lights).flatMap pixelBytes, ?_, hlen 640 480⟩
  unfold render
  rw [hfmt 640 480]
  have hh : ppmHeader 640 480 = ("P6\n640 480\n255\n").toList.map Char.toNat := by decide
  rw [hh]

/-- C15: in `render` (any positive `width` and `height`, a positive `scale`) the camera
coordinate `y` of row `j` strictly decreases as `j` grows, the camera coordinate `x` of
column `i` strictly increases with `i`, the colour of the pixel `(i, j)` is stored in
slot `j * width + i` of the buffer, and its three bytes are those of the pixel number
`j * width + i` of the file, right after the header: row-major order. -/
theorem render_row_major [FloorRing F] (sqrt tan : F → F) (width height : Nat)
    (spheres : List (Sphere F)) (lights : List (Light F)) (hscale : 0 < renderScale tan)
    (hw : 0 < width) (hh : 0 < height) :
    (∀ j j' : Nat, j < j' → pixelY tan height j' < pixelY tan height j)
    ∧ (∀ i i' : Nat, i < i' → pixelX tan width height i < pixelX tan width height i')
    ∧ ∀ i j : Nat, i < width → j < height →
        (renderImage sqrt tan width height spheres lights)[j * width + i]?
          = some (pixelColor sqrt tan width height spheres lights i j)
        ∧ (renderWith sqrt tan width height spheres lights)[
            (ppmHeader width height).length + 3 * (j * width + i)]?
          = some (channelByte (pixelColor sqrt tan width height spheres lights i j).x)
        ∧ (renderWith sqrt tan width height spheres lights)[
            (ppmHeader width height).length + (3 * (j * width + i) + 1)]?
          = some (channelByte (pixelColor sqrt tan width height spheres lights i j).y)
        ∧ (renderWith sqrt tan width height spheres lights)[
            (ppmHeader width height).length + (3 * (j * width + i) + 2)]?
          = some (channelByte (pixelColor sqrt tan width height spheres lights i j).z) := by
  refine ⟨fun j j' hj => pixelY_lt tan height j j' hscale hh hj,
    fun i i' hi => pixelX_lt tan width height i i' hscale hw hh hi, ?_⟩
  intro i j hi hj
  exact ⟨(renderImage_spec sqrt tan width height spheres lights).2 i j hi hj,
    renderWith_pixel sqrt tan width height spheres lights i j hi hj⟩

/-- C15 for `render` itself: the real square root and tangent, 640 columns and 480
rows, on the scene of `main`. -/
theorem render_row_major_witness :
    (∀ j j' : Nat, j < j' → pixelY Real.tan 480 j' < pixelY Real.tan 480 j)
    ∧ (∀ i i' : Nat, i < i' → pixelX Real.tan 640 480 i < pixelX Real.tan 640 480 i')
    ∧ ∀ i j : Nat, i < 640 → j < 480 →
        (renderImage Real.sqrt Real.tan 640 480 (mainSpheres : List (Sphere ℝ)) mainLights)[
            j * 640 + i]?
          = some (pixelColor Real.sqrt Real.tan 640 480 mainSpheres mainLights i j) :=
  have h := render_row_major Real.sqrt Real.tan 640 480 (mainSpheres : List (Sphere ℝ))
    mainLights renderScale_real_pos (by norm_num) (by norm_num)
  ⟨h.1, h.2.1, fun i j hi hj => (h.2.2 i j hi hj).1⟩

/-- C16: in the pixel loops of `render`, for every column `i < width` and row
`j < height` the index `j * width + i` is inside the buffer of `width * height` slots;
the index determines `(i, j)` and every slot is the index of some pixel, so the map is
a bijection; every slot is written exactly once by the loops, and after them every
slot holds the colour of its pixel. -/
theorem render_buffer_indexing (sqrt tan : F → F) (width height : Nat)
    (spheres : List (Sphere F)) (lights : List (Light F)) :
    (∀ i j : Nat, i < width → j < height → j * width + i < width * height)
    ∧ (∀ i j i' j' : Nat, i < width → j < height → i' < width → j' < height →
        j * width + i = j' * width + i' → i = i' ∧ j = j')
    ∧ (∀ p : Nat, p < width * height → ∃ i j : Nat, i < width ∧ j < height ∧ p = j * width + i)
    ∧ (∀ p : Nat, p < width * height → (renderWrites width height).count p = 1)
    ∧ (∀ p : Nat, p ∈ renderWrites width height → p < width * height)
    ∧ (renderImage sqrt tan width height spheres lights).length = width * height
    ∧ ∀ p : Nat, p < width * height →
        (renderImage sqrt tan width height spheres lights)[p]?
          = some (pixelColor sqrt tan width height spheres lights (p % width) (p / width)) := by
  have hsurj : ∀ p : Nat, p < width * height →
      p % width < width ∧ p / width < height ∧ p = p / width * width + p % width := by
    intro p hp
    have hw : 0 < width := by
      rcases Nat.eq_zero_or_pos width with h | h
      · rw [h, Nat.zero_mul] at hp; exact absurd hp (Nat.not_lt_zero p)
      · exact h
    exact ⟨Nat.mod_lt p hw, (Nat.div_lt_iff_lt_mul hw).mpr (by rw [Nat.mul_comm]; exact hp),
      (Nat.div_add_mod' p width).symm⟩
  obtain ⟨hlen, hslot⟩ := renderImage_spec sqrt tan width height spheres lights
  refine ⟨fun i j hi hj => pixel_index_lt width height i j hi hj,
    fun i j i' j' hi _ hi' _ h => pixel_index_inj width i j i' j' hi hi' h,
    fun p hp => ⟨p % width, p / width, hsurj p hp⟩,
    fun p hp => List.count_eq_one_of_mem (nodup_renderWrites width height)
      ((mem_renderWrites width height p).mpr hp),
    fun p hp => (mem_renderWrites width height p).mp hp, hlen, ?_⟩
  intro p hp
  obtain ⟨h1, h2, h3⟩ := hsurj p hp
  have := hslot (p % width) (p / width) h1 h2
  rw [← h3] at this
  exact this

/-- C17: on two sphere lists that are permutations of each other `trace` returns the
same flag and the same `tnear`; and when no two different spheres report the least
`t0`, it returns the same sphere on both lists. -/
theorem trace_perm (sqrt : F → F) (origin direction : Vector3 F)
    (spheres spheres' : List (Sphere F)) (hperm : spheres.Perm spheres') :
    (trace sqrt origin direction spheres none).hit
      = (trace sqrt origin direction spheres' none).hit
    ∧ (trace sqrt origin direction spheres none).tnear
      = (trace sqrt origin direction spheres' none).tnear
    ∧ ((∀ (S S' : Sphere F) (t t1 t1' : F), S ∈ spheres → S' ∈ spheres →
          (trace sqrt origin direction spheres none).tnear = some t →
          S.intersect sqrt origin direction = some (t, t1) →
          S'.intersect sqrt origin direction = some (t, t1') → S = S') →
        (trace sqrt origin direction spheres none).sphere spheres
          = (trace sqrt origin direction spheres' none).sphere spheres') := by
  by_cases h : ∃ S ∈ spheres, (S.intersect sqrt origin direction).isSome
  · have h' : ∃ S ∈ spheres', (S.intersect sqrt origin direction).isSome := by
      obtain ⟨S, hS, hi⟩ := h
      exact ⟨S, hperm.mem_iff.mp hS, hi⟩
    obtain ⟨k, S, t, t1, htr, hk, hS, hmin, _⟩ := trace_hit_spec sqrt origin direction spheres h
    obtain ⟨k', S', t', t1', htr', hk', hS', hmin', _⟩ :=
      trace_hit_spec sqrt origin direction spheres' h'
    have hmem : S ∈ spheres := List.getElem?_mem hk
    have hmem' : S' ∈ spheres' := List.getElem?_mem hk'
    have hle : t ≤ t' := by
      obtain ⟨j, hj⟩ := List.mem_iff_getElem?.mp (hperm.mem_iff.mpr hmem')
      exact hmin j S' t' t1' hj hS'
    have hge : t' ≤ t := by
      obtain ⟨j, hj⟩ := List.mem_iff_getElem?.mp (hperm.mem_iff.mp hmem)
      exact hmin' j S t t1 hj hS
    have htt : t = t' := le_antisymm hle hge
    subst htt
    rw [htr, htr']
    refine ⟨rfl, rfl, ?_⟩
    intro huniq
    have hSS : S = S' :=
      huniq S S' t t1 t1' hmem (hperm.mem_iff.mpr hmem') rfl hS hS'
    simp only [TraceResult.sphere, Option.some_bind, hk, hk', hSS]
  · have hnone : ∀ S ∈ spheres, S.intersect sqrt origin direction = none := by
      intro S hS
      by_contra hne
      exact h ⟨S, hS, Option.ne_none_iff_isSome.mp hne⟩
    have hnone' : ∀ S ∈ spheres', S.intersect sqrt origin direction = none :=
      fun S hS => hnone S (hperm.mem_iff.mpr hS)
    rw [trace_miss sqrt origin direction spheres hnone,
      trace_miss sqrt origin direction spheres' hnone']
    exact ⟨rfl, rfl, fun _ => rfl⟩

/-- C17 on the scene of `main` and the same scene with its first two spheres swapped,
for the camera ray down the depth axis. -/
theorem trace_perm_witness :
    (trace Real.sqrt ⟨0, 0, 0⟩ ⟨0, 0, -1⟩
        ([mainSphere0, ⟨⟨-7, 0, -30⟩, 2, ⟨31 / 100, 1, 36 / 100⟩, 7 / 10⟩,
          ⟨⟨7, 0, -30⟩, 2, ⟨36 / 100, 32 / 100, 1⟩, 7 / 10⟩] : List (Sphere ℝ)) none).tnear
      = (trace Real.sqrt ⟨0, 0, 0⟩ ⟨0, 0, -1⟩
        ([⟨⟨-7, 0, -30⟩, 2, ⟨31 / 100, 1, 36 / 100⟩, 7 / 10⟩, mainSphere0,
          ⟨⟨7, 0, -30⟩, 2, ⟨36 / 100, 32 / 100, 1⟩, 7 / 10⟩] : List (Sphere ℝ)) none).tnear :=
  (trace_perm Real.sqrt ⟨0, 0, 0⟩ ⟨0, 0, -1⟩ _ _ (List.Perm.swap _ _ _)).2.1

/-- C18: for a primary ray of unit direction over a scene of spheres of positive
radius, `castRay` returns the colour of its variant that skips a light whenever the
shadow trace reports a hit; and whenever the shadow ray from `P + N * 0.001` toward a
light has the hit sphere itself as its nearest hit, `dot(lightDir, N) < 0` and
`cosTheta` is 0. -/
theorem self_hit_exception_inert {sqrt : F → F} (hs : IsSqrt sqrt)
    (origin direction : Vector3 F) (spheres : List (Sphere F)) (lights : List (Light F))
    (hd : Vector3.dotProduct direction direction = 1)
    (hpos : ∀ S ∈ spheres, 0 < S.radius) :
    castRay sqrt origin direction spheres lights
      = castRayAnyHit sqrt origin direction spheres lights
    ∧ ∀ (k : Nat) (S : Sphere F) (t0 : F),
        trace sqrt origin direction spheres none = ⟨true, some t0, some k⟩ →
        spheres[k]? = some S → ∀ L : Light F,
        (trace sqrt
            (origin + direction * t0
              + S.getNormalAtPoint sqrt (origin + direction * t0) * (1 / 1000 : F))
            (Vector3.normalize sqrt (L.position - (origin + direction * t0)))
            spheres none).hitSphere = some k →
        Vector3.dotProduct (Vector3.normalize sqrt (L.position - (origin + direction * t0)))
            (S.getNormalAtPoint sqrt (origin + direction * t0)) < 0
        ∧ stdMax (Vector3.dotProduct
            (Vector3.normalize sqrt (L.position - (origin + direction * t0)))
            (S.getNormalAtPoint sqrt (origin + direction * t0))) 0 = 0 := by
  have hsurf : ∀ (k : Nat) (S : Sphere F) (t0 : F),
      trace sqrt origin direction spheres none = ⟨true, some t0, some k⟩ →
      spheres[k]? = some S → S.onSurface (origin + direction * t0) := by
    intro k S t0 htr hk
    have hex := exists_intersected_of_hit sqrt origin direction spheres (by rw [htr]; simp)
    obtain ⟨k', S', t0', t1', htr', hk', hS', _⟩ :=
      trace_hit_spec sqrt origin direction spheres hex
    rw [htr] at htr'
    simp only [TraceResult.mk.injEq, Option.some.injEq, true_and] at htr'
    obtain ⟨rfl, rfl⟩ := htr'
    rw [hk] at hk'
    cases hk'
    exact ((Sphere.intersect_spec hs S origin direction t0 t1' hS').2 hd).1
  constructor
  · by_cases h : ∃ S ∈ spheres, (S.intersect sqrt origin direction).isSome
    · obtain ⟨k, S, t0, t1, htr, hk, _⟩ := trace_hit_spec sqrt origin direction spheres h
      have hP := hsurf k S t0 htr hk
      have hr := hpos S (List.getElem?_mem hk)
      rw [castRay_of_hit sqrt origin direction spheres lights k S t0 htr hk,
        castRayAnyHit_of_hit sqrt origin direction spheres lights k S t0 htr hk]
      congr 1
      funext c L
      exact shadeLight_eq_anyHit hs spheres k S _ c L hk hr hP
    · have hnone : ∀ S ∈ spheres, S.intersect sqrt origin direction = none := by
        intro S hS
        by_contra hne
        exact h ⟨S, hS, Option.ne_none_iff_isSome.mp hne⟩
      simp only [castRay, castRayAnyHit, trace_miss sqrt origin direction spheres hnone]
      rfl
  · intro k S t0 htr hk L hself
    have hP := hsurf k S t0 htr hk
    have hr := hpos S (List.getElem?_mem hk)
    have hex := exists_intersected_of_hit sqrt _ _ spheres (by rw [hself]; simp)
    obtain ⟨m, Sm, t, t', htr', hm, hSm, _⟩ := trace_hit_spec sqrt _ _ spheres hex
    rw [htr'] at hself
    simp only [Option.some.injEq] at hself
    subst hself
    rw [hk] at hm
    cases hm
    have hback := Sphere.self_shadow_backfacing hs S (origin + direction * t0)
      (Vector3.normalize sqrt (L.position - (origin + direction * t0))) hr hP
      (by rw [hSm]; rfl)
    exact ⟨hback, by rw [stdMax_eq_max]; exact max_eq_right (le_of_lt hback)⟩

/-- C18 on `shadowScene`, lit from the front and from behind the hit sphere. -/
theorem self_hit_exception_inert_witness :
    castRay Real.sqrt ⟨0, 0, 0⟩ ⟨0, 0, -1⟩ (shadowScene : List (Sphere ℝ))
        [shadowLight, backLight]
      = castRayAnyHit Real.sqrt ⟨0, 0, 0⟩ ⟨0, 0, -1⟩ (shadowScene : List (Sphere ℝ))
        [shadowLight, backLight] :=
  (self_hit_exception_inert isSqrt_real ⟨0, 0, 0⟩ ⟨0, 0, -1⟩ shadowScene
    [shadowLight, backLight] (by norm_num [Vector3.dotProduct]) (by
      intro S hS
      simp only [shadowScene, List.mem_cons, List.mem_singleton, List.not_mem_nil,
        or_false] at hS
      rcases hS with rfl | rfl <;> norm_num)).1

/-- C19: the shadow test ignores the distance to the light.  In `shadowScene` the camera
ray hits the first sphere at `P = (0, 0, -2)` with normal `N = (0, 0, 1)`; the light
`cameraLight` at `(0, 0, 0)` faces `P` (`dot(lightDir, N) = 1 > 0`) at distance 2; the
shadow ray meets a sphere of the scene only at parameters larger than 2, on the second
sphere at 5.999 and 7.999, beyond the light; and still the shadow test skips the light
and `castRay` returns the colour it returns with the light removed; with the second
sphere taken out of the scene the light does change the colour. -/
theorem shadow_test_ignores_light_distance :
    trace Real.sqrt ⟨0, 0, 0⟩ ⟨0, 0, -1⟩ (shadowScene : List (Sphere ℝ)) none
      = ⟨true, some 2, some 0⟩
    ∧ ((⟨0, 0, 0⟩ : Vector3 ℝ) + (⟨0, 0, -1⟩ : Vector3 ℝ) * (2 : ℝ)) = ⟨0, 0, -2⟩
    ∧ (⟨⟨0, 0, -3⟩, 1, ⟨1, 1, 1⟩, 1⟩ : Sphere ℝ).onSurface ⟨0, 0, -2⟩
    ∧ Sphere.getNormalAtPoint Real.sqrt (⟨⟨0, 0, -3⟩, 1, ⟨1, 1, 1⟩, 1⟩ : Sphere ℝ) ⟨0, 0, -2⟩
        = ⟨0, 0, 1⟩
    ∧ Vector3.normalize Real.sqrt ((cameraLight : Light ℝ).position - ⟨0, 0, -2⟩) = ⟨0, 0, 1⟩
    ∧ 0 < Vector3.dotProduct
        (Vector3.normalize Real.sqrt ((cameraLight : Light ℝ).position - ⟨0, 0, -2⟩))
        (Sphere.getNormalAtPoint Real.sqrt (⟨⟨0, 0, -3⟩, 1, ⟨1, 1, 1⟩, 1⟩ : Sphere ℝ)
          ⟨0, 0, -2⟩)
    ∧ Vector3.dotProduct ((cameraLight : Light ℝ).position - ⟨0, 0, -2⟩)
        ((cameraLight : Light ℝ).position - ⟨0, 0, -2⟩) = 2 * 2
    ∧ (∀ S ∈ (shadowScene : List (Sphere ℝ)), ∀ t : ℝ, 0 ≤ t →
        S.onSurface ((⟨0, 0, -2⟩ : Vector3 ℝ) + (⟨0, 0, 1⟩ : Vector3 ℝ) * (1 / 1000 : ℝ)
          + (⟨0, 0, 1⟩ : Vector3 ℝ) * t) → 2 < t)
    ∧ Sphere.intersect Real.sqrt (⟨⟨0, 0, 5⟩, 1, ⟨1, 1, 1⟩, 1⟩ : Sphere ℝ)
        ((⟨0, 0, -2⟩ : Vector3 ℝ) + (⟨0, 0, 1⟩ : Vector3 ℝ) * (1 / 1000 : ℝ)) ⟨0, 0, 1⟩
        = some (5999 / 1000, 7999 / 1000)
    ∧ shadowSkips Real.sqrt (shadowScene : List (Sphere ℝ)) 0 ⟨0, 0, -2⟩ ⟨0, 0, 1⟩ cameraLight
        = true
    ∧ castRay Real.sqrt ⟨0, 0, 0⟩ ⟨0, 0, -1⟩ (shadowScene : List (Sphere ℝ)) [cameraLight]
        = castRay Real.sqrt ⟨0, 0, 0⟩ ⟨0, 0, -1⟩ (shadowScene : List (Sphere ℝ)) []
    ∧ castRay Real.sqrt ⟨0, 0, 0⟩ ⟨0, 0, -1⟩
          ([⟨⟨0, 0, -3⟩, 1, ⟨1, 1, 1⟩, 1⟩] : List (Sphere ℝ)) [cameraLight]
        ≠ castRay Real.sqrt ⟨0, 0, 0⟩ ⟨0, 0, -1⟩
          ([⟨⟨0, 0, -3⟩, 1, ⟨1, 1, 1⟩, 1⟩] : List (Sphere ℝ)) [] := by
  have hP : ((⟨0, 0, 0⟩ : Vector3 ℝ) + (⟨0, 0, -1⟩ : Vector3 ℝ) * (2 : ℝ)) = ⟨0, 0, -2⟩ := by
    rw [Vector3.ext_iff3]; norm_num
  have hN := shadowScene_normal
  have hD := cameraLight_lightDir
  have hB := cameraLight_shadow_back
  have hT := cameraLight_shadow_trace
  rw [hP] at hN hD hB hT
  have hsurf : (⟨⟨0, 0, -3⟩, 1, ⟨1, 1, 1⟩, 1⟩ : Sphere ℝ).onSurface ⟨0, 0, -2⟩ := by
    norm_num [Sphere.onSurface, Vector3.dotProduct]
  have hskip : shadowSkips Real.sqrt (shadowScene : List (Sphere ℝ)) 0 ⟨0, 0, -2⟩ ⟨0, 0, 1⟩
      cameraLight = true := by
    simp only [shadowSkips, hD, hT]
    decide
  have hA := cameraLight_shadow_front
  rw [hP] at hA
  have htr1 : trace Real.sqrt ⟨0, 0, 0⟩ ⟨0, 0, -1⟩
      ([⟨⟨0, 0, -3⟩, 1, ⟨1, 1, 1⟩, 1⟩] : List (Sphere ℝ)) none = ⟨true, some 2, some 0⟩ := by
    simp [trace, traceLoop, shadowScene_front, belowTnear]
  have hlit : shadowSkips Real.sqrt ([⟨⟨0, 0, -3⟩, 1, ⟨1, 1, 1⟩, 1⟩] : List (Sphere ℝ)) 0
      ⟨0, 0, -2⟩ ⟨0, 0, 1⟩ cameraLight = false := by
    have hmiss := trace_miss Real.sqrt
      ((⟨0, 0, -2⟩ : Vector3 ℝ) + (⟨0, 0, 1⟩ : Vector3 ℝ) * (1 / 1000 : ℝ)) ⟨0, 0, 1⟩
      ([⟨⟨0, 0, -3⟩, 1, ⟨1, 1, 1⟩, 1⟩] : List (Sphere ℝ)) (by
        intro S hS
        rw [List.mem_singleton] at hS
        rw [hS]; exact hA)
    simp only [shadowSkips, hD, hmiss]
    decide
  refine ⟨shadowScene_trace, hP, hsurf, hN, hD, ?_, ?_, ?_, hB, hskip, ?_, ?_⟩
  · rw [hN, hD]; norm_num [Vector3.dotProduct]
  · norm_num [cameraLight, Vector3.dotProduct]
  · intro S hS t ht hon
    simp only [shadowScene, List.mem_cons, List.mem_singleton, List.not_mem_nil,
      or_false] at hS
    rcases hS with rfl | rfl
    · norm_num [Sphere.onSurface, Vector3.dotProduct] at hon
      nlinarith
    · norm_num [Sphere.onSurface, Vector3.dotProduct] at hon
      nlinarith
  · rw [castRay_of_hit Real.sqrt _ _ shadowScene [cameraLight] 0
        ⟨⟨0, 0, -3⟩, 1, ⟨1, 1, 1⟩, 1⟩ 2 shadowScene_trace rfl,
      castRay_of_hit Real.sqrt _ _ shadowScene [] 0
        ⟨⟨0, 0, -3⟩, 1, ⟨1, 1, 1⟩, 1⟩ 2 shadowScene_trace rfl, hP, hN]
    simp only [List.foldl_cons, List.foldl_nil, shadeLight_eq, hskip, if_true]
  · rw [castRay_of_hit Real.sqrt _ _ _ [cameraLight] 0
        ⟨⟨0, 0, -3⟩, 1, ⟨1, 1, 1⟩, 1⟩ 2 htr1 rfl,
      castRay_of_hit Real.sqrt _ _ _ [] 0
        ⟨⟨0, 0, -3⟩, 1, ⟨1, 1, 1⟩, 1⟩ 2 htr1 rfl, hP, hN]
    simp only [List.foldl_cons, List.foldl_nil, shadeLight_eq, hlit, Bool.false_eq_true,
      if_false, lambertTerm, hD]
    intro heq
    have hx := congrArg Vector3.x heq
    have hpi := (PI_bounds (F := ℝ)).1
    norm_num [Vector3.dotProduct, cameraLight] at hx
    exact absurd hx (ne_of_gt hpi)

/-- C20: `castRay` returns the same colour on two light lists of the same length whose
lights agree, one by one, in position and intensity, whatever their colours. -/
theorem castRay_ignores_light_color (sqrt : F → F) (origin direction : Vector3 F)
    (spheres : List (Sphere F)) (lights lights' : List (Light F))
    (h : List.Forall₂ Light.sameButColor lights lights') :
    castRay sqrt origin direction spheres lights
      = castRay sqrt origin direction spheres lights' := by
  simp only [castRay]
  split_ifs
  · exact foldl_shadeLight_sameButColor sqrt spheres _ _ _ _ lights lights' h _
  · rfl

/-- C20 on the scene of `main`: the two white lights replaced by a red and a black one. -/
theorem castRay_ignores_light_color_witness :
    castRay Real.sqrt ⟨0, 0, 0⟩ ⟨0, 0, -1⟩ (mainSpheres : List (Sphere ℝ))
        [⟨⟨-3, -(1 / 2), -28⟩, ⟨1, 1, 1⟩, 1⟩, ⟨⟨11, 2, -(59 / 2)⟩, ⟨1, 1, 1⟩, 1⟩]
      = castRay Real.sqrt ⟨0, 0, 0⟩ ⟨0, 0, -1⟩ (mainSpheres : List (Sphere ℝ))
        [⟨⟨-3, -(1 / 2), -28⟩, ⟨1, 0, 0⟩, 1⟩, ⟨⟨11, 2, -(59 / 2)⟩, ⟨0, 0, 0⟩, 1⟩] :=
  castRay_ignores_light_color Real.sqrt ⟨0, 0, 0⟩ ⟨0, 0, -1⟩ mainSpheres _ _
    (List.Forall₂.cons ⟨rfl, rfl⟩ (List.Forall₂.cons ⟨rfl, rfl⟩ List.Forall₂.nil))

end Claims

end RayTracing
